import Mathlib

/-!
Verification of the macaroon-bakery authorization framework.

This file gives a shallow embedding, in Lean 4, of the parts of the
macaroon-bakery Go sources relevant to the checked claims:

* `bakery/checker.go` — the `AuthChecker` decision engine
  (`initOnceFunc`, `allowAny`, `AllowCapability`, `caveatSquasher`);
* `httpbakery/error.go` — `ErrorToResponse` and `RequestVersion`;
* `bakery/checkers` (time.go) — `checkTimeBefore`;
* `bakerytest/bakerytest.go` — the test discharger, `FinishInteraction`
  and the process-wide TLS skip-verify reference counter.

External collaborators (interfaces such as `MacaroonOpStore`,
`FirstPartyCaveatChecker`, `IdentityClient`, `Authorizer`, and the Go
standard library time parser) are modelled as explicit function
parameters, bundled in `CheckerCtx` and `TimeLib`. Macaroon slices are
identified by their index in the presented list; their cryptographic
content is behind the `MacaroonOpStore` collaborator, exactly as in
`checker.go`.
-/

namespace MacaroonBakery

/-! ## Basic data model (bakery/interface.go, bakery/checker.go) -/

/-- `Op` holds an entity and action to be authorized on that entity
(`bakery/interface.go`). -/
structure Op where
  action : String
  entity : String
deriving DecidableEq, Repr

/-- `bakery.LoginOp` (`bakery/checker.go`). -/
def LoginOp : Op := { action := "login", entity := "login" }

/-- `checkers.Caveat`. Only the fields the claims need are modelled;
the condition is a plain string, the location is empty for first
party caveats. -/
structure Caveat where
  condition : String
  location : String := ""
deriving DecidableEq, Repr

/-! ## The checkers condition language

The `bakery/checkers` package is part of this repository but its source
is not included here; the standard condition names and the shape of
`ParseCaveat` are modelled from the spec (sections 4.1 and 3:
condition syntax is `<name> [argument]`, names `time-before`,
`declared`, `allow`, `deny` are stable wire strings). -/

/-- Modelled from the spec: the stable wire string `time-before`
(spec section 4.1). -/
def CondTimeBefore : String := "time-before"

/-- Modelled from the spec: the stable wire string `declared`. -/
def CondDeclared : String := "declared"

/-- Modelled from the spec: the stable wire string `allow`. -/
def CondAllow : String := "allow"

/-- Modelled from the spec: the stable wire string `deny`. -/
def CondDeny : String := "deny"

/-- Splits a character list at the first space: returns the part
before the space and the part after it, together with whether a
space was found. -/
def splitAtSpace : List Char → (List Char × Option (List Char))
  | [] => ([], none)
  | c :: rest =>
    if c = ' ' then ([], some rest)
    else
      let (pre, post) := splitAtSpace rest
      (c :: pre, post)

/-- Modelled from the spec: `checkers.ParseCaveat`, which is in this
repository but outside the included sources. The spec gives the
first-party condition syntax `<name> [argument]`; an empty condition
or one starting with a space is an error (`none`). -/
def ParseCaveat (cav : String) : Option (String × String) :=
  match cav.data with
  | [] => none
  | c :: rest =>
    if c = ' ' then none
    else
      let (pre, post) := splitAtSpace (c :: rest)
      match post with
      | none => some (⟨pre⟩, "")
      | some arg => some (⟨pre⟩, ⟨arg⟩)

/-! ## Time

Go `time.Time` values are modelled as integers (an abstract instant
scale ordered like time), with `0` playing the role of the zero
`time.Time` so that `IsZero` becomes `= 0`. The RFC3339-nano parser
and formatter of the Go standard library (external to this repository)
are abstracted as a `TimeLib` record; a parser returning `none` models
a `time.Parse` error. -/

/-- The Go standard library time functions used by the sources,
abstracted: `parse` is `time.Parse(time.RFC3339Nano, ·)` and `format`
is `t.UTC().Format(time.RFC3339Nano)`. -/
structure TimeLib where
  parse : String → Option Int
  format : Int → String

/-- Reads a nonempty all-digit character list as a natural number;
`none` otherwise. -/
def natFromDigits (cs : List Char) : Option Nat :=
  if cs = [] then none
  else if cs.all (fun c => c.isDigit) then
    some (cs.foldl (fun n c => n * 10 + (c.toNat - 48)) 0)
  else none

/-- The character for a decimal digit. -/
def digitChar (n : Nat) : Char :=
  if n = 0 then '0' else if n = 1 then '1' else if n = 2 then '2'
  else if n = 3 then '3' else if n = 4 then '4' else if n = 5 then '5'
  else if n = 6 then '6' else if n = 7 then '7' else if n = 8 then '8'
  else '9'

/-- Decimal digits of a natural number, with explicit fuel. -/
def natDigitsFuel : Nat → Nat → List Char
  | 0, _ => []
  | f + 1, n =>
    if n < 10 then [digitChar n]
    else natDigitsFuel f (n / 10) ++ [digitChar (n % 10)]

/-- A trivial concrete `TimeLib` used for witnesses: times are decimal
strings of nonnegative integers. -/
def decTimeLib : TimeLib where
  parse s := (natFromDigits s.data).map (fun n => (n : Int))
  format t := ⟨natDigitsFuel (t.natAbs + 1) t.natAbs⟩

/-- `checkers.TimeBeforeCaveat(t).Condition`
(`bakery/checkers/time.go`): the condition string
`time-before <formatted t>`. -/
def TimeBeforeCondition (tl : TimeLib) (t : Int) : String :=
  CondTimeBefore ++ " " ++ tl.format t

/-- `checkTimeBefore` (`bakery/checkers/time.go`). The context clock
is modelled by `clock : Option Int` (the result of
`clockFromContext`); `wallNow` is `time.Now()`. The result is `none`
on success and `some msg` on failure, mirroring the returned error. -/
def checkTimeBefore (tl : TimeLib) (clock : Option Int) (wallNow : Int)
    (arg : String) : Option String :=
  let now := clock.getD wallNow
  match tl.parse arg with
  | none => some "cannot parse time"
  | some t => if ¬ now < t then some "macaroon has expired" else none

/-! ## httpbakery error responses (httpbakery/error.go) -/

/-- `httpbakery.ErrBadRequest`. -/
def ErrBadRequest : String := "bad request"

/-- `httpbakery.ErrDischargeRequired`. -/
def ErrDischargeRequired : String := "macaroon discharge required"

/-- `httpbakery.ErrInteractionRequired`. -/
def ErrInteractionRequired : String := "interaction required"

/-- Modelled from the spec: the bakery protocol versions. The
constants `bakery.Version0 .. bakery.Version3` and
`bakery.LatestVersion` live in `bakery/version.go`, outside the
included sources; the spec and the switch in `httpbakery/error.go`
fix them as the integers 0..3 with 3 the latest. -/
def LatestVersion : Nat := 3

/-- The part of an HTTP error response that the claims are about: the
status code and whether the `WWW-Authenticate: Macaroon` header is
set. -/
structure ErrResponse where
  status : Nat
  wwwAuthenticateMacaroon : Bool
deriving DecidableEq, Repr

/-- `httpbakery.ErrorToResponse` (`httpbakery/error.go`), restricted
to the data the claims mention: the error body is represented by its
code string and protocol version. `none` models the Go panic on an
out-of-range version. -/
def ErrorToResponse (code : String) (version : Nat) : Option ErrResponse :=
  if code = ErrBadRequest then some ⟨400, false⟩
  else if code = ErrDischargeRequired ∨ code = ErrInteractionRequired then
    if version = 0 then some ⟨407, false⟩
    else if version = 1 ∨ version = 2 ∨ version = 3 then some ⟨401, true⟩
    else none
  else some ⟨500, false⟩

/-- `strconv.Atoi` (Go standard library), modelled with unbounded
integers: an optional sign followed by at least one digit. The model
is exact for values within the machine integer range; the claims only
involve small values. -/
def atoi (s : String) : Option Int :=
  match s.data with
  | [] => none
  | c :: rest =>
    if c = '+' then (natFromDigits rest).map (fun n => (n : Int))
    else if c = '-' then (natFromDigits rest).map (fun n => -(n : Int))
    else (natFromDigits (c :: rest)).map (fun n => (n : Int))

/-- `httpbakery.RequestVersion` (`httpbakery/error.go`). The argument
is the value of the `Bakery-Protocol-Version` header; `http.Header.Get`
returns the empty string when the header is absent. -/
def RequestVersion (hdr : String) : Nat :=
  if hdr = "" then 0
  else
    match atoi hdr with
    | none => 0
    | some x =>
      if x < 0 then 0
      else if (LatestVersion : Int) < x then LatestVersion
      else x.toNat

/-! ## The caveat squasher (bakery/checker.go, lines 437-492)

`caveatSquasher` rationalizes first party caveats created for a
capability. The Go zero `time.Time` is the integer `0`, so that the
`IsZero` tests become `= 0`; the squasher never stores a parsed zero
time (`add0` keeps such conditions verbatim instead), exactly as in
the source. -/

/-- The `caveatSquasher` struct (`bakery/checker.go`). `expiry = 0`
models the zero `time.Time`. -/
structure caveatSquasher where
  expiry : Int := 0
  conds : List String := []
deriving DecidableEq, Repr

/-- `caveatSquasher.add0`: returns the updated squasher and whether
the condition should be kept verbatim. -/
def caveatSquasher.add0 (tl : TimeLib) (c : caveatSquasher) (cond : String) :
    caveatSquasher × Bool :=
  match ParseCaveat cond with
  | none => (c, true)
  | some (name, args) =>
    if name = CondTimeBefore then
      match tl.parse args with
      | none => (c, true)
      | some et =>
        if et = 0 then (c, true)
        else if c.expiry = 0 ∨ et < c.expiry then ({ c with expiry := et }, false)
        else (c, false)
    else if name = CondAllow ∨ name = CondDeny ∨ name = CondDeclared then
      (c, false)
    else (c, true)

/-- `caveatSquasher.add`. -/
def caveatSquasher.add (tl : TimeLib) (c : caveatSquasher) (cond : String) :
    caveatSquasher :=
  let (c1, keep) := c.add0 tl cond
  if keep then { c1 with conds := c1.conds ++ [cond] } else c1

/-- The in-place deduplication loop at the end of
`caveatSquasher.final`. Go iterates `i` over positions `1..n-1` of the
sorted slice reading `a[i]`, and writes unique values at position `j`,
with `j <= i` throughout, so every read sees the original value; the
model passes the original tail separately for reading and keeps the
evolving slice for writing. Crucially the Go code returns the whole
slice `c.conds`, not `c.conds[:j]`, so positions from `j` on keep
their old values. -/
def finalDedupGo (arr : List String) (prev : String) (j : Nat) :
    List String → List String
  | [] => arr
  | c :: cs =>
    if c ≠ prev then finalDedupGo (arr.set j c) c (j + 1) cs
    else finalDedupGo arr prev j cs

/-- Lexicographic comparison of character lists by code point, which
on UTF-8 strings coincides with the byte order used by Go
`sort.Strings`. -/
def charListLe : List Char → List Char → Bool
  | [], _ => true
  | _ :: _, [] => false
  | a :: as, b :: bs =>
    if a = b then charListLe as bs else decide (a.toNat < b.toNat)

/-- String comparison in Go byte order. -/
def strLe (a b : String) : Bool := charListLe a.data b.data

/-- `caveatSquasher.final` (`bakery/checker.go`): append the earliest
expiry as a fresh `time-before` condition, sort, and run the
deduplication loop. -/
def caveatSquasher.final (tl : TimeLib) (c : caveatSquasher) : List String :=
  let conds :=
    if c.expiry ≠ 0 then c.conds ++ [TimeBeforeCondition tl c.expiry]
    else c.conds
  match List.insertionSort (fun a b : String => strLe a b = true) conds with
  | [] => []
  | x :: rest => finalDedupGo (x :: rest) x 1 rest

/-- The squash of a whole condition list: fold `add` over it and take
`final`, as `AllowCapability` does. -/
def squashConds (tl : TimeLib) (conds : List String) : List String :=
  (conds.foldl (fun c cond => c.add tl cond) ({} : caveatSquasher)).final tl

/-! ## The bakerytest discharger (bakerytest/bakerytest.go) -/

/-- The outcome of a third party caveat check by the test discharger:
a list of further caveats (minting a discharge macaroon), an
interaction-required error, or another error. -/
inductive TPCOutcome where
  | caveats (cavs : List Caveat)
  | interactionRequired
  | failure (msg : String)
deriving DecidableEq, Repr

/-- The fields of `bakerytest.Discharger` that
`CheckThirdPartyCaveat` can read: the configured `Checker` (modelled
as a function from the caveat condition to an outcome; `none` stands
for a nil `Checker` field) and the registered interaction handlers
(opaque tags). -/
structure TestDischarger where
  checker : Option (String → TPCOutcome)
  interactors : List String

/-- `Discharger.AddInteractor` (`bakerytest/bakerytest.go`). -/
def TestDischarger.AddInteractor (d : TestDischarger) (i : String) :
    TestDischarger :=
  { d with interactors := d.interactors ++ [i] }

/-- `Discharger.CheckThirdPartyCaveat` (`bakerytest/bakerytest.go`,
lines 208-218): if the `Checker` field is nil the caveat is discharged
unconditionally (no caveats), otherwise the configured checker runs.
Note that the function never consults `d.interactors`. -/
def TestDischarger.CheckThirdPartyCaveat (d : TestDischarger)
    (cond : String) : TPCOutcome :=
  match d.checker with
  | none => .caveats []
  | some f => f cond

/-! ## FinishInteraction (bakerytest/bakerytest.go, lines 292-305)

The per-discharge channel has capacity one, so it is modelled as an
`Option DischargeResult`: `none` is an empty channel, `some r` a
channel holding the pending outcome `r`. The `waiting` map is an
association list from discharge id to channel. -/

/-- `dischargeResult` (`bakerytest/bakerytest.go`). -/
structure DischargeResult where
  caveats : List Caveat
  err : Option String
deriving DecidableEq, Repr

/-- The discharger `waiting` map: discharge id to outcome channel. -/
abbrev WaitingMap : Type := List (String × Option DischargeResult)

/-- Replaces the channel stored under the given id. -/
def setChannel (w : WaitingMap) (id : String) (r : Option DischargeResult) :
    WaitingMap :=
  w.map (fun p => if p.1 = id then (p.1, r) else p)

/-- `VisitWaitHandler.FinishInteraction`
(`bakerytest/bakerytest.go`): looks up the discharge, then performs a
single non-blocking send of the outcome on the capacity-1 channel; if
the channel is full the `default` branch reports an error and nothing
changes. Returns the new map and `none` on success or `some msg`. -/
def FinishInteraction (w : WaitingMap) (id : String)
    (cavs : List Caveat) (err : Option String) : WaitingMap × Option String :=
  match w.lookup id with
  | none => (w, some ("invalid wait id " ++ id))
  | some none => (setChannel w id (some ⟨cavs, err⟩), none)
  | some (some _) => (w, some ("cannot finish interaction " ++ id))

/-! ## The TLS skip-verify reference counter
(bakerytest/bakerytest.go, lines 112-155) -/

/-- The process-wide state: the `skipVerify` ref counter with its
saved flag, and the `http.DefaultTransport.TLSClientConfig`, modelled
as `Option Bool` carrying its `InsecureSkipVerify` flag (`none` is a
nil config). -/
structure SkipVerifyState where
  refCount : Int
  oldSkipVerify : Bool
  tlsConfig : Option Bool
deriving DecidableEq, Repr

/-- The effective `InsecureSkipVerify` flag of the transport: false
when the TLS config is nil. -/
def SkipVerifyState.insecure (s : SkipVerifyState) : Bool :=
  s.tlsConfig.getD false

/-- `startSkipVerify` (`bakerytest/bakerytest.go`). -/
def startSkipVerify (s : SkipVerifyState) : SkipVerifyState :=
  let s := { s with refCount := s.refCount + 1 }
  if 1 < s.refCount then s
  else
    match s.tlsConfig with
    | some b => { s with oldSkipVerify := b, tlsConfig := some true }
    | none => { s with oldSkipVerify := false, tlsConfig := some true }

/-- `stopSkipVerify` (`bakerytest/bakerytest.go`). When the count
reaches zero the saved flag is written back through the (by then
non-nil) TLS config. -/
def stopSkipVerify (s : SkipVerifyState) : SkipVerifyState :=
  let s := { s with refCount := s.refCount - 1 }
  if 0 < s.refCount then s
  else { s with tlsConfig := some s.oldSkipVerify }

/-- One call to `startSkipVerify` (one test discharger created) or
`stopSkipVerify` (one closed). -/
inductive SVOp where
  | start
  | stop
deriving DecidableEq, Repr

/-- Runs a sequence of start and stop calls. -/
def runSkipVerify (s : SkipVerifyState) (ops : List SVOp) : SkipVerifyState :=
  ops.foldl
    (fun st op =>
      match op with
      | .start => startSkipVerify st
      | .stop => stopSkipVerify st)
    s

/-- The contribution of one call to the reference count. -/
def svStep (n : Int) (op : SVOp) : Int :=
  match op with
  | .start => n + 1
  | .stop => n - 1

/-- The number of starts minus the number of stops in a call
sequence. -/
def svCount (ops : List SVOp) : Int :=
  ops.foldl svStep 0

/-! ## The AuthChecker (bakery/checker.go)

The checker is generic in the identity type `I` (`bakery.Identity` is
an interface). Its collaborators are bundled in `CheckerCtx`:

* `macOps` — the result of `MacaroonOpStore.MacaroonOps` for each
  presented macaroon slice, `none` modelling an error return (bad
  signature, missing root key, tampered id);
* `checkFirstPartyCaveat` — `FirstPartyCaveatChecker` under the
  context carrying the operation and the declared attributes;
* `inferDeclared` — `checkers.InferDeclaredFromConditions`;
* `declaredIdentity` — `IdentityClient.DeclaredIdentity` (`none`
  models an error);
* `identityFromContext` — `IdentityClient.IdentityFromContext`;
* `authorize` — `Authorizer.Authorize`.

The ambient `context.Context` is fixed throughout one decision, so it
is folded into the collaborator functions. -/

/-- The parameters and collaborators of one `AuthChecker` decision. -/
structure CheckerCtx (I : Type) where
  macOps : List (Option (List Op × List String))
  checkFirstPartyCaveat : Op → List (String × String) → String → Bool
  inferDeclared : List String → List (String × String)
  declaredIdentity : List (String × String) → Option I
  identityFromContext : Except String (Option I × List Caveat)
  authorize : Option I → List Op → Except String (List Bool × List Caveat)

/-- `AuthChecker.checkConditions` (`bakery/checker.go`, lines
494-505): infer the declared attributes, then check every condition
under the operation context; any failure aborts. -/
def checkConditions {I : Type} (p : CheckerCtx I) (op : Op)
    (conds : List String) : Option (List (String × String)) :=
  let declared := p.inferDeclared conds
  if conds.all (fun cond => p.checkFirstPartyCaveat op declared cond) then
    some declared
  else none

/-- The fields of `AuthChecker` set up by `initOnceFunc`:
`conditions` maps a macaroon index to its first party conditions,
`authIndexes` maps an operation to the macaroon indexes that may
authorize it. -/
structure InitState (I : Type) where
  conditions : Nat → List String
  identity : Option I
  identityCaveats : List Caveat
  authIndexes : Op → List Nat

/-- The state at entry of `initOnceFunc`: empty maps and no
identity. -/
def initState0 (I : Type) : InitState I where
  conditions := fun _ => []
  identity := none
  identityCaveats := []
  authIndexes := fun _ => []

/-- One iteration of the loop in `AuthChecker.initOnceFunc`
(`bakery/checker.go`, lines 190-223) for the macaroon slice at index
`i`. A `none` result from `MacaroonOps` is silently ignored. For an
authentication macaroon (`ops == [LoginOp]`), a failed caveat check, a
duplicate authentication macaroon, or an undecodable declared identity
each `continue`, skipping the indexing as well; a successful one sets
the identity and falls through to the indexing. -/
def initStep {I : Type} (p : CheckerCtx I) (s : InitState I) (i : Nat) :
    Option (List Op × List String) → InitState I
  | none => s
  | some (ops, conditions) =>
    let afterLogin : Option (InitState I) :=
      if ops = [LoginOp] then
        match checkConditions p LoginOp conditions with
        | none => none
        | some declared =>
          if s.identity.isSome then none
          else
            match p.declaredIdentity declared with
            | none => none
            | some identity => some { s with identity := some identity }
      else some s
    match afterLogin with
    | none => s
    | some s1 =>
      { s1 with
        conditions := fun j => if j = i then conditions else s1.conditions j
        authIndexes := fun op =>
          s1.authIndexes op ++ (ops.filter (fun o => o = op)).map (fun _ => i) }

/-- The loop of `initOnceFunc`, with the running slice index made
explicit. -/
def initLoopAux {I : Type} (p : CheckerCtx I) :
    Nat → List (Option (List Op × List String)) → InitState I → InitState I
  | _, [], s => s
  | i, m :: rest, s => initLoopAux p (i + 1) rest (initStep p s i m)

/-- The state after the macaroon loop of `initOnceFunc`. -/
def initLoop {I : Type} (p : CheckerCtx I) : InitState I :=
  initLoopAux p 0 p.macOps (initState0 I)

/-- `AuthChecker.initOnceFunc` (`bakery/checker.go`, lines 187-234):
run the macaroon loop; if no login macaroon produced an identity,
consult `IdentityClient.IdentityFromContext`, whose error is the only
fatal outcome. -/
def initOnceFunc {I : Type} (p : CheckerCtx I) : Except String (InitState I) :=
  let s := initLoop p
  if s.identity.isNone then
    match p.identityFromContext with
    | .error e => .error ("could not determine identity: " ++ e)
    | .ok (identity, caveats) =>
      .ok { s with identity := identity, identityCaveats := caveats }
  else .ok s

/-- The error component of an `allowAny` result. -/
inductive AllowErr where
  | dischargeRequired (message : String) (ops : List Op) (caveats : List Caveat)
  | permissionDenied
  | failure (message : String)
deriving DecidableEq, Repr

/-- The outcome of `AuthChecker.allowAny`: an init error, the Go
panic when an identity is present with no login macaroon index, or the
`(authed, used, err)` triple. -/
inductive AllowOutcome where
  | initError (message : String)
  | panicNoLoginIndex
  | result (authed used : List Bool) (err : Option AllowErr)
deriving DecidableEq, Repr

/-- The inner loop of the macaroon sweep (`bakery/checker.go`, lines
312-323): walk the macaroon indexes for one operation; the first
macaroon whose conditions pass authorizes it and is marked used. -/
def sweepOp {I : Type} (p : CheckerCtx I) (s : InitState I) (op : Op) :
    List Nat → List Bool → Bool × List Bool
  | [], used => (false, used)
  | mindex :: rest, used =>
    if (checkConditions p op (s.conditions mindex)).isSome then
      (true, used.set mindex true)
    else sweepOp p s op rest used

/-- The loop of the macaroon sweep over the remaining requested
operations; `numOps` is the length of the full request, used for the
`LoginOp`-combined-with-others test. -/
def sweepOpsAux {I : Type} (p : CheckerCtx I) (s : InitState I)
    (numOps : Nat) : List Op → List Bool × List Bool → List Bool × List Bool
  | [], acc => acc
  | op :: rest, acc =>
    if op = LoginOp ∧ 1 < numOps then
      sweepOpsAux p s numOps rest (acc.1 ++ [false], acc.2)
    else
      let r := sweepOp p s op (s.authIndexes op) acc.2
      sweepOpsAux p s numOps rest (acc.1 ++ [r.1], r.2)

/-- The macaroon sweep (`bakery/checker.go`, lines 303-324): for each
requested operation, skipping `LoginOp` when combined with others,
record whether it was authorized and mark the used macaroon. Returns
`(authed, used)`. -/
def sweepOps {I : Type} (p : CheckerCtx I) (s : InitState I)
    (ops : List Op) : List Bool × List Bool :=
  sweepOpsAux p s ops.length ops ([], List.replicate p.macOps.length false)

/-- The authentication-macaroon marking (`bakery/checker.go`, lines
325-339): when an identity is present, the first macaroon indexed
under `LoginOp` is marked used; `none` models the Go panic when there
is no such index. -/
def markLogin {I : Type} (s : InitState I) (used : List Bool) :
    Option (List Bool) :=
  match s.identity with
  | none => some used
  | some _ =>
    match s.authIndexes LoginOp with
    | [] => none
    | idx :: _ => some (used.set idx true)

/-- The tail of `allowAny` after the call to `Authorizer.Authorize`
(`bakery/checker.go`, lines 372-391): success when nothing remains and
no caveats were returned; otherwise the identity-caveats branch, then
permission denied, then the discharge-required error carrying the
requested operations and the extra caveats. -/
def allowAnyFinish {I : Type} (identity : Option I)
    (identityCaveats : List Caveat) (ops stillNeed : List Op)
    (caveats : List Caveat) (authed used : List Bool) : AllowOutcome :=
  if stillNeed = [] ∧ caveats = [] then .result authed used none
  else if identity.isNone ∧ identityCaveats ≠ [] then
    .result authed used
      (some (.dischargeRequired "authentication required" [LoginOp] identityCaveats))
  else if caveats = [] then .result authed used (some .permissionDenied)
  else
    .result authed used
      (some (.dischargeRequired "some operations have extra caveats" ops caveats))

/-- `allowAny` after a successful init (`bakery/checker.go`, lines
303-392): sweep the macaroons, mark the authentication macaroon,
return early when everything is authorized, otherwise consult the
authorizer and classify the outcome. -/
def allowAnyPost {I : Type} (p : CheckerCtx I) (s : InitState I)
    (ops : List Op) : AllowOutcome :=
  let swept := sweepOps p s ops
  let authed := swept.1
  match markLogin s swept.2 with
  | none => .panicNoLoginIndex
  | some used =>
    let numAuthed := (authed.filter (fun b => b)).length
    if numAuthed = ops.length then .result authed used none
    else
      let needIdx := (List.range ops.length).filter
        (fun i => authed.getD i false = false)
      let need := needIdx.map (fun i => ops.getD i LoginOp)
      match p.authorize s.identity need with
      | .error e =>
        .result authed used (some (.failure ("cannot check permissions: " ++ e)))
      | .ok (oks, caveats) =>
        if oks.length ≠ need.length then
          .result authed used
            (some (.failure "unexpected slice length returned from Allow"))
        else
          let granted := (needIdx.zip oks).filter (fun q => q.2)
          let authed1 := granted.foldl (fun a q => a.set q.1 true) authed
          let stillNeed := ((needIdx.zip oks).filter (fun q => ¬ q.2)).map
            (fun q => ops.getD q.1 LoginOp)
          allowAnyFinish s.identity s.identityCaveats ops stillNeed caveats
            authed1 used

/-- `AuthChecker.allowAny` (`bakery/checker.go`, lines 298-392). -/
def allowAny {I : Type} (p : CheckerCtx I) (ops : List Op) : AllowOutcome :=
  match initOnceFunc p with
  | .error e => .initError e
  | .ok s => allowAnyPost p s ops

/-- `bakery.AuthInfo`: the identity and the used macaroon slices,
the latter by their index in the presented list. -/
structure AuthInfo (I : Type) where
  identity : Option I
  macaroons : List Nat

/-- `AuthChecker.newAuthInfo` (`bakery/checker.go`, lines 281-292). -/
def newAuthInfo {I : Type} (identity : Option I) (used : List Bool) :
    AuthInfo I :=
  { identity
    macaroons := (List.range used.length).filter (fun i => used.getD i false) }

/-- `AuthChecker.AllowAny` (`bakery/checker.go`, lines 276-279):
wraps `allowAny`, always building an `AuthInfo` from the used slices.
`none` models the panic propagating. -/
def AllowAnyM {I : Type} (p : CheckerCtx I) (ops : List Op) :
    Option (AuthInfo I × List Bool × Option AllowErr) :=
  match initOnceFunc p with
  | .error e => some (newAuthInfo none [], [], some (.failure e))
  | .ok s =>
    match allowAnyPost p s ops with
    | .initError e => some (newAuthInfo none [], [], some (.failure e))
    | .panicNoLoginIndex => none
    | .result authed used err => some (newAuthInfo s.identity used, authed, err)

/-- The message of an `AllowErr`, as carried by the masked error that
`AllowCapability` propagates. -/
def AllowErr.message : AllowErr → String
  | .dischargeRequired m _ _ => m
  | .permissionDenied => "permission denied"
  | .failure m => m

/-- `AuthChecker.AllowCapability` (`bakery/checker.go`, lines
403-428): at least one non-login operation is required; on a
successful `allowAny`, squash the first party conditions of every
used macaroon. The Go panic inside `allowAny` is reported as an
error message here. -/
def AllowCapability {I : Type} (tl : TimeLib) (p : CheckerCtx I)
    (ops : List Op) : Except String (List String) :=
  let nops := (ops.filter (fun op => op ≠ LoginOp)).length
  if nops = 0 then .error "no non-login operations required in capability"
  else
    match initOnceFunc p with
    | .error e => .error e
    | .ok s =>
      match allowAnyPost p s ops with
      | .initError e => .error e
      | .panicNoLoginIndex => .error "panic: no macaroon info found for login op"
      | .result _ _ (some e) => .error e.message
      | .result _ used none =>
        .ok (squashConds tl
          ((List.range used.length).foldl
            (fun acc i => if used.getD i false then acc ++ s.conditions i else acc)
            []))

/-! ## Concrete instances used in witnesses and counterexamples -/

/-- A sample non-login operation. -/
def opRead : Op := ⟨"read", "e1"⟩

/-- A sample identity caveat, as supplied by
`IdentityClient.IdentityFromContext`. -/
def icav : Caveat := ⟨"declared username someone", "idm-loc"⟩

/-- A sample extra caveat returned by the authorizer. -/
def xcav : Caveat := ⟨"extra", "third-loc"⟩

/-- A checker context with no macaroons and an open authorizer. -/
def unitCtx : CheckerCtx Unit where
  macOps := []
  checkFirstPartyCaveat := fun _ _ _ => true
  inferDeclared := fun _ => []
  declaredIdentity := fun _ => none
  identityFromContext := .ok (none, [])
  authorize := fun _ ops => .ok (ops.map (fun _ => true), [])

/-- A checker context with no macaroons, where the identity client
supplies no identity but one identity caveat, and the authorizer
denies the operations while returning one extra caveat. -/
def c1Ctx : CheckerCtx Unit where
  macOps := []
  checkFirstPartyCaveat := fun _ _ _ => true
  inferDeclared := fun _ => []
  declaredIdentity := fun _ => none
  identityFromContext := .ok (none, [icav])
  authorize := fun _ ops => .ok (ops.map (fun _ => false), [xcav])

/-- A checker context with one used macaroon carrying duplicate first
party conditions. -/
def c5Ctx : CheckerCtx Unit where
  macOps := [some ([opRead], ["c1 x", "c1 x"])]
  checkFirstPartyCaveat := fun _ _ _ => true
  inferDeclared := fun _ => []
  declaredIdentity := fun _ => none
  identityFromContext := .ok (none, [])
  authorize := fun _ ops => .ok (ops.map (fun _ => true), [])

/-- A checker context whose first macaroon is a valid authentication
macaroon and whose second authorizes `opRead`. -/
def c9Ctx : CheckerCtx String where
  macOps := [some ([LoginOp], ["cond1"]), some ([opRead], ["cond2"])]
  checkFirstPartyCaveat := fun _ _ _ => true
  inferDeclared := fun _ => [("username", "bob")]
  declaredIdentity := fun d => match d with | (_, v) :: _ => some v | [] => none
  identityFromContext := .ok (none, [])
  authorize := fun _ ops => .ok (ops.map (fun _ => true), [])

/-! ## C3: HTTP error status and protocol version -/

/-- C3: for every error written through `ErrorToResponse`, the status
is 400 for code `bad request`; for discharge-required and
interaction-required errors, version 0 gives 407 and versions 1, 2, 3
give 401 with the `WWW-Authenticate: Macaroon` header; and
`RequestVersion` returns 0 for an absent or malformed
`Bakery-Protocol-Version` header (including negative values), the
latest known version when the value exceeds it, and the integer value
otherwise. -/
theorem errorToResponse_requestVersion_spec :
    (∀ v, ErrorToResponse ErrBadRequest v = some ⟨400, false⟩)
    ∧ (∀ code v, code = ErrDischargeRequired ∨ code = ErrInteractionRequired →
        (v = 0 → ErrorToResponse code v = some ⟨407, false⟩)
        ∧ (v = 1 ∨ v = 2 ∨ v = 3 → ErrorToResponse code v = some ⟨401, true⟩))
    ∧ RequestVersion "" = 0
    ∧ (∀ s, atoi s = none → RequestVersion s = 0)
    ∧ (∀ s x, atoi s = some x → x < 0 → RequestVersion s = 0)
    ∧ (∀ s x, atoi s = some x → (LatestVersion : Int) < x →
        RequestVersion s = LatestVersion)
    ∧ (∀ s x, atoi s = some x → 0 ≤ x → x ≤ (LatestVersion : Int) →
        RequestVersion s = x.toNat) := by
  have hne : ∀ s, atoi s ≠ none → s ≠ "" := by
    intro s h he
    subst he
    exact h rfl
  refine ⟨?_, ?_, rfl, ?_, ?_, ?_, ?_⟩
  · intro v
    simp [ErrorToResponse]
  · intro code v hcode
    constructor
    · intro hv
      subst hv
      rcases hcode with h | h <;> subst h <;>
        simp [ErrorToResponse, ErrBadRequest, ErrDischargeRequired,
          ErrInteractionRequired]
    · intro hv
      rcases hcode with h | h <;> subst h <;>
        rcases hv with h | h | h <;> subst h <;>
        simp [ErrorToResponse, ErrBadRequest, ErrDischargeRequired,
          ErrInteractionRequired]
  · intro s h
    by_cases he : s = ""
    · subst he; rfl
    · simp only [RequestVersion, if_neg he, h]
  · intro s x h hx
    have he := hne s (by simp [h])
    simp only [RequestVersion, if_neg he, h, if_pos hx]
  · intro s x h hx
    have he := hne s (by simp [h])
    have h1 : ¬ x < 0 := by omega
    simp only [RequestVersion, if_neg he, h, if_neg h1, if_pos hx]
  · intro s x h h0 h3
    have he := hne s (by simp [h])
    have h1 : ¬ x < 0 := by omega
    have h2 : ¬ (LatestVersion : Int) < x := by
      simp only [LatestVersion] at h3 ⊢
      omega
    simp only [RequestVersion, if_neg he, h, if_neg h1, if_neg h2]

/-- Witness for C3 at concrete inputs. -/
theorem errorToResponse_requestVersion_witness :
    ErrorToResponse ErrDischargeRequired 0 = some ⟨407, false⟩
    ∧ ErrorToResponse ErrInteractionRequired 2 = some ⟨401, true⟩
    ∧ RequestVersion "junk" = 0
    ∧ RequestVersion "-7" = 0
    ∧ RequestVersion "99" = 3
    ∧ RequestVersion "2" = ((2 : Int)).toNat := by
  obtain ⟨h1, h2, _, h4, h5, h6, h7⟩ := errorToResponse_requestVersion_spec
  exact ⟨(h2 _ 0 (Or.inl rfl)).1 rfl,
    (h2 _ 2 (Or.inr rfl)).2 (Or.inr (Or.inl rfl)),
    h4 "junk" (by decide),
    h5 "-7" (-7) (by decide) (by decide),
    h6 "99" 99 (by decide) (by decide),
    h7 "2" 2 (by decide) (by decide) (by decide)⟩

/-! ## C6: the time-before checker -/

/-- C6: for a condition argument that parses as a valid time `t`, the
`time-before` checker accepts exactly when the current time — the
clock from the context when present, else the wall clock — is before
`t`, and rejects with the expiry error exactly when it is at or past
`t`. -/
theorem checkTimeBefore_expiry (tl : TimeLib) (clock : Option Int)
    (wallNow : Int) (arg : String) (t : Int) (h : tl.parse arg = some t) :
    (checkTimeBefore tl clock wallNow arg = none ↔ clock.getD wallNow < t)
    ∧ (checkTimeBefore tl clock wallNow arg = some "macaroon has expired"
        ↔ t ≤ clock.getD wallNow) := by
  unfold checkTimeBefore
  rw [h]
  by_cases hlt : clock.getD wallNow < t
  · have : ¬ t ≤ clock.getD wallNow := by omega
    simp [hlt, this]
  · have : t ≤ clock.getD wallNow := by omega
    simp [hlt, this]

/-- Witness for C6: with a fake clock at 3 and wall clock 7, the
caveat `time-before 5` is accepted (3 < 5); the expiry branch is not
taken. -/
theorem checkTimeBefore_expiry_witness :
    (checkTimeBefore decTimeLib (some 3) 7 "5" = none
      ↔ (some (3 : Int)).getD 7 < 5)
    ∧ (checkTimeBefore decTimeLib (some 3) 7 "5" = some "macaroon has expired"
      ↔ (5 : Int) ≤ (some (3 : Int)).getD 7) :=
  checkTimeBefore_expiry decTimeLib (some 3) 7 "5" 5 (by decide)

/-! ## C7: FinishInteraction -/

/-- Looking up an id after `setChannel` yields the stored channel,
provided the id was present. -/
theorem lookup_setChannel (w : WaitingMap) (id : String)
    (r : Option DischargeResult) (x : Option DischargeResult)
    (h : w.lookup id = some x) :
    (setChannel w id r).lookup id = some r := by
  induction w with
  | nil => simp [List.lookup] at h
  | cons p rest ih =>
    obtain ⟨k, v⟩ := p
    by_cases hk : id = k
    · subst hk
      have hs : setChannel ((id, v) :: rest) id r = (id, r) :: setChannel rest id r := by
        simp [setChannel]
      rw [hs]
      simp [List.lookup]
    · have hbeq : (id == k) = false := by
        simp [hk]
      simp only [List.lookup, hbeq] at h
      simp only [setChannel, List.map_cons, if_neg (by simpa using Ne.symm hk)]
      simp only [List.lookup, hbeq]
      exact ih h

/-- C7: `FinishInteraction` performs a single non-blocking send of
the outcome on the capacity-1 channel of the discharge id: when the
channel is empty the outcome is recorded and no error returned; a
second call before the pending outcome has been consumed returns an
error and leaves the map — hence the recorded caveats and error —
unchanged. -/
theorem finishInteraction_single_send :
    (∀ (w : WaitingMap) (id : String) (cavs : List Caveat)
        (err : Option String), w.lookup id = some none →
        FinishInteraction w id cavs err
          = (setChannel w id (some ⟨cavs, err⟩), none)
        ∧ (FinishInteraction w id cavs err).1.lookup id
            = some (some ⟨cavs, err⟩))
    ∧ (∀ (w : WaitingMap) (id : String) (cavs : List Caveat)
        (err : Option String) (r : DischargeResult),
        w.lookup id = some (some r) →
        FinishInteraction w id cavs err
          = (w, some ("cannot finish interaction " ++ id))
        ∧ (FinishInteraction w id cavs err).1.lookup id = some (some r)) := by
  constructor
  · intro w id cavs err h
    have he : FinishInteraction w id cavs err
        = (setChannel w id (some ⟨cavs, err⟩), none) := by
      unfold FinishInteraction
      rw [h]
    refine ⟨he, ?_⟩
    rw [he]
    exact lookup_setChannel w id (some ⟨cavs, err⟩) none h
  · intro w id cavs err r h
    have he : FinishInteraction w id cavs err
        = (w, some ("cannot finish interaction " ++ id)) := by
      unfold FinishInteraction
      rw [h]
    exact ⟨he, by rw [he]; exact h⟩

/-- Witness for C7: a first `FinishInteraction` on discharge id `0`
records the outcome; a second one fails and the recorded outcome is
unchanged. -/
theorem finishInteraction_single_send_witness :
    (FinishInteraction [("0", none)] "0" [icav] none
      = (setChannel [("0", none)] "0" (some ⟨[icav], none⟩), none)
      ∧ (FinishInteraction [("0", none)] "0" [icav] none).1.lookup "0"
          = some (some ⟨[icav], none⟩))
    ∧ (FinishInteraction [("0", some ⟨[icav], none⟩)] "0" [xcav] (some "boom")
        = ([("0", some ⟨[icav], none⟩)], some ("cannot finish interaction " ++ "0"))
      ∧ (FinishInteraction [("0", some ⟨[icav], none⟩)] "0" [xcav]
          (some "boom")).1.lookup "0" = some (some ⟨[icav], none⟩)) :=
  ⟨finishInteraction_single_send.1 [("0", none)] "0" [icav] none (by decide),
   finishInteraction_single_send.2 [("0", some ⟨[icav], none⟩)] "0" [xcav]
     (some "boom") ⟨[icav], none⟩ (by decide)⟩

/-! ## C2: the test discharger ignores registered interactors -/

/-- C2 (code bug): `Discharger.CheckThirdPartyCaveat` never consults
the registered interaction handlers: adding an interactor does not
change its result, and with an interactor added and a nil `Checker`
it discharges unconditionally (returning no caveats, so a POST
/discharge mints a macaroon immediately) instead of returning an
interaction-required error as its own doc comment requires. -/
theorem checkThirdPartyCaveat_ignores_interactors :
    (∀ (d : TestDischarger) (i cond : String),
        (d.AddInteractor i).CheckThirdPartyCaveat cond
          = d.CheckThirdPartyCaveat cond)
    ∧ (TestDischarger.AddInteractor ⟨none, []⟩ "visit-wait").interactors ≠ []
    ∧ (TestDischarger.AddInteractor ⟨none, []⟩ "visit-wait").CheckThirdPartyCaveat
        "cond" = .caveats []
    ∧ (TestDischarger.AddInteractor ⟨none, []⟩ "visit-wait").CheckThirdPartyCaveat
        "cond" ≠ .interactionRequired := by
  refine ⟨fun d i cond => rfl, by simp [TestDischarger.AddInteractor], rfl, by decide⟩

/-! ## C5: the capability caveat squash keeps duplicates -/

/-- C5 (code bug): the deduplication loop in `caveatSquasher.final`
never truncates the slice to the deduplicated length, so the squash
of the first party conditions of the used macaroons can contain
duplicates (and even leftover elements out of sorted order), and
`AllowCapability` returns them. -/
theorem caveatSquasher_final_keeps_duplicates :
    squashConds decTimeLib ["a a", "a a", "b b", "b b", "c c"]
      = ["a a", "b b", "c c", "b b", "c c"]
    ∧ ¬ (squashConds decTimeLib ["a a", "a a", "b b", "b b", "c c"]).Nodup
    ∧ squashConds decTimeLib ["c1 x", "c1 x"] = ["c1 x", "c1 x"]
    ∧ AllowCapability decTimeLib c5Ctx [opRead] = .ok ["c1 x", "c1 x"]
    ∧ ¬ (["c1 x", "c1 x"] : List String).Nodup := by
  refine ⟨by decide, by decide, by decide, rfl, by decide⟩

/-! ## C10: AllowCapability requires a non-login operation -/

/-- C10: whenever every requested operation is `LoginOp` — including
the empty list — `AllowCapability` returns an error at once, for
every checker context, so no macaroon and no authorizer is
consulted. -/
theorem allowCapability_requires_nonlogin_op {I : Type} (tl : TimeLib)
    (p : CheckerCtx I) (ops : List Op) (h : ∀ op ∈ ops, op = LoginOp) :
    AllowCapability tl p ops
      = .error "no non-login operations required in capability" := by
  unfold AllowCapability
  have hf : ops.filter (fun op => op ≠ LoginOp) = [] := by
    rw [List.filter_eq_nil_iff]
    intro a ha
    simpa using h a ha
  rw [hf]
  rfl

/-- Witness for C10 at `ops = [LoginOp]` and at `ops = []`. -/
theorem allowCapability_requires_nonlogin_op_witness :
    AllowCapability decTimeLib unitCtx [LoginOp]
      = .error "no non-login operations required in capability"
    ∧ AllowCapability decTimeLib c9Ctx []
      = .error "no non-login operations required in capability" :=
  ⟨allowCapability_requires_nonlogin_op decTimeLib unitCtx [LoginOp] (by decide),
   allowCapability_requires_nonlogin_op decTimeLib c9Ctx [] (by simp)⟩

/-! ## C1: the outcome classification of allowAny -/

/-- C1 counterexample: with no identity, a pending identity caveat
from `IdentityClient.IdentityFromContext`, and an authorizer that
denies the operation while returning an extra caveat, `allowAny`
returns the authentication-required `DischargeRequiredError` with
`Ops = [LoginOp]` and the identity caveats — not, as the claim
states for the extra-caveats case, a `DischargeRequiredError`
carrying the requested operations and the authorizer caveats. -/
theorem allowAny_extraCaveats_counterexample :
    allowAny c1Ctx [opRead]
      = .result [false] []
          (some (.dischargeRequired "authentication required" [LoginOp] [icav]))
    ∧ ([LoginOp] : List Op) ≠ [opRead]
    ∧ ([icav] : List Caveat) ≠ [xcav] := by
  refine ⟨by decide, by decide, by decide⟩

/-- C1 as amended: after the macaroon sweep and the authorizer call,
the outcome cascade of `allowAny` is: success when no operation is
still needed and no extra caveats were returned; otherwise the
authentication-required discharge error when there is no identity and
identity caveats are pending — regardless of extra caveats; then
permission denied when no extra caveats remain and an identity is
present; and the discharge-required error carrying the requested
operations and the extra caveats only when an identity is present or
no identity caveats are pending. -/
theorem allowAnyFinish_classification {I : Type} (identity : Option I)
    (identityCaveats : List Caveat) (ops stillNeed : List Op)
    (caveats : List Caveat) (authed used : List Bool) :
    (stillNeed = [] ∧ caveats = [] →
      allowAnyFinish identity identityCaveats ops stillNeed caveats authed used
        = .result authed used none)
    ∧ (¬ (stillNeed = [] ∧ caveats = []) → identity.isNone →
        identityCaveats ≠ [] →
      allowAnyFinish identity identityCaveats ops stillNeed caveats authed used
        = .result authed used
            (some (.dischargeRequired "authentication required" [LoginOp]
              identityCaveats)))
    ∧ (stillNeed ≠ [] → caveats = [] → identity.isSome →
      allowAnyFinish identity identityCaveats ops stillNeed caveats authed used
        = .result authed used (some .permissionDenied))
    ∧ (caveats ≠ [] → (identity.isSome ∨ identityCaveats = []) →
      allowAnyFinish identity identityCaveats ops stillNeed caveats authed used
        = .result authed used
            (some (.dischargeRequired "some operations have extra caveats" ops
              caveats))) := by
  refine ⟨?_, ?_, ?_, ?_⟩
  · intro h
    simp [allowAnyFinish, h]
  · intro h hid hcav
    rw [allowAnyFinish, if_neg h, if_pos ⟨hid, hcav⟩]
  · intro hs hc hid
    have h1 : ¬ (stillNeed = [] ∧ caveats = []) := by
      intro h
      exact hs h.1
    have h2 : ¬ (identity.isNone ∧ identityCaveats ≠ []) := by
      intro h
      rw [Option.isSome_iff_ne_none] at hid
      rw [Option.isNone_iff_eq_none] at h
      exact hid h.1
    rw [allowAnyFinish, if_neg h1, if_neg h2, if_pos hc]
  · intro hc hid
    have h1 : ¬ (stillNeed = [] ∧ caveats = []) := by
      intro h
      exact hc h.2
    have h2 : ¬ (identity.isNone ∧ identityCaveats ≠ []) := by
      rcases hid with h | h
      · intro hh
        rw [Option.isSome_iff_ne_none] at h
        rw [Option.isNone_iff_eq_none] at hh
        exact h hh.1
      · intro hh
        exact hh.2 h
    rw [allowAnyFinish, if_neg h1, if_neg h2, if_neg hc]

/-- Witness for the amended C1 classification, at concrete inputs
exercising the authentication-required branch and the extra-caveats
branch. -/
theorem allowAnyFinish_classification_witness :
    allowAnyFinish (none : Option Unit) [icav] [opRead] [opRead] [xcav]
        [false] []
      = .result [false] []
          (some (.dischargeRequired "authentication required" [LoginOp] [icav]))
    ∧ allowAnyFinish (some ()) [] [opRead] [opRead] [xcav] [false] []
      = .result [false] []
          (some (.dischargeRequired "some operations have extra caveats"
            [opRead] [xcav])) :=
  ⟨(allowAnyFinish_classification (none : Option Unit) [icav] [opRead] [opRead]
      [xcav] [false] []).2.1 (by decide) (by decide) (by decide),
   (allowAnyFinish_classification (some ()) [] [opRead] [opRead]
      [xcav] [false] []).2.2.2 (by decide) (Or.inl (by decide))⟩

/-! ## C8: the TLS skip-verify reference counter -/

/-- The invariant tying the skip-verify state to the original flag
value: the count never goes negative; at count zero the effective
flag equals the original; at positive count the flag is set and the
saved value is the original. -/
def SVInv (orig : Bool) (s : SkipVerifyState) : Prop :=
  0 ≤ s.refCount
  ∧ (s.refCount = 0 → s.insecure = orig)
  ∧ (0 < s.refCount → s.insecure = true ∧ s.oldSkipVerify = orig)

theorem startSkipVerify_refCount (s : SkipVerifyState) :
    (startSkipVerify s).refCount = s.refCount + 1 := by
  unfold startSkipVerify
  dsimp only
  split
  · rfl
  · split <;> rfl

theorem stopSkipVerify_refCount (s : SkipVerifyState) :
    (stopSkipVerify s).refCount = s.refCount - 1 := by
  unfold stopSkipVerify
  dsimp only
  split <;> rfl

theorem startSkipVerify_inv {orig : Bool} {s : SkipVerifyState}
    (h : SVInv orig s) : SVInv orig (startSkipVerify s) := by
  obtain ⟨h0, hz, hp⟩ := h
  by_cases h1 : 0 < s.refCount
  · have hone : 1 < s.refCount + 1 := by omega
    have : startSkipVerify s = { s with refCount := s.refCount + 1 } := by
      unfold startSkipVerify
      rw [if_pos hone]
    rw [this]
    obtain ⟨hi, ho⟩ := hp h1
    exact ⟨by simp; omega, by intro h; simp at h; omega,
      fun _ => ⟨by simpa [SkipVerifyState.insecure] using hi, ho⟩⟩
  · have hz0 : s.refCount = 0 := by omega
    have hflag := hz hz0
    have hone : ¬ 1 < s.refCount + 1 := by omega
    cases htc : s.tlsConfig with
    | some b =>
      have heq : startSkipVerify s = ⟨s.refCount + 1, b, some true⟩ := by
        unfold startSkipVerify
        rw [if_neg hone, htc]
      rw [heq]
      refine ⟨by simp; omega, by intro hh; simp at hh; omega, ?_⟩
      intro _
      constructor
      · simp [SkipVerifyState.insecure]
      · show b = orig
        rw [← hflag]
        simp [SkipVerifyState.insecure, htc]
    | none =>
      have heq : startSkipVerify s = ⟨s.refCount + 1, false, some true⟩ := by
        unfold startSkipVerify
        rw [if_neg hone, htc]
      rw [heq]
      refine ⟨by simp; omega, by intro hh; simp at hh; omega, ?_⟩
      intro _
      constructor
      · simp [SkipVerifyState.insecure]
      · show false = orig
        rw [← hflag]
        simp [SkipVerifyState.insecure, htc]

theorem stopSkipVerify_inv {orig : Bool} {s : SkipVerifyState}
    (h : SVInv orig s) (hpos : 0 < s.refCount) :
    SVInv orig (stopSkipVerify s) := by
  obtain ⟨h0, hz, hp⟩ := h
  obtain ⟨hi, ho⟩ := hp hpos
  by_cases h1 : 0 < s.refCount - 1
  · have : stopSkipVerify s = { s with refCount := s.refCount - 1 } := by
      unfold stopSkipVerify
      rw [if_pos h1]
    rw [this]
    exact ⟨by simp; omega, by intro hh; simp at hh; omega,
      fun _ => ⟨by simpa [SkipVerifyState.insecure] using hi, ho⟩⟩
  · have : stopSkipVerify s
        = { s with refCount := s.refCount - 1, tlsConfig := some s.oldSkipVerify } := by
      unfold stopSkipVerify
      rw [if_neg h1]
    rw [this]
    refine ⟨by simp; omega, ?_, ?_⟩
    · intro _
      simp [SkipVerifyState.insecure, ho]
    · intro hh
      simp at hh
      omega

theorem foldl_svStep (l : List SVOp) (n : Int) :
    l.foldl svStep n = n + svCount l := by
  induction l generalizing n with
  | nil => simp [svCount]
  | cons a l ih =>
    simp only [List.foldl_cons, svCount] at *
    rw [ih (svStep n a), ih (svStep 0 a)]
    cases a <;> simp [svStep] <;> omega

theorem svCount_cons (a : SVOp) (l : List SVOp) :
    svCount (a :: l) = svStep 0 a + svCount l := by
  simp only [svCount, List.foldl_cons]
  exact foldl_svStep l (svStep 0 a)

theorem runSkipVerify_refCount (ops : List SVOp) :
    ∀ s : SkipVerifyState,
      (runSkipVerify s ops).refCount = s.refCount + svCount ops := by
  induction ops with
  | nil =>
    intro s
    simp [runSkipVerify, svCount]
  | cons a l ih =>
    intro s
    cases a with
    | start =>
      have hr : runSkipVerify s (.start :: l)
          = runSkipVerify (startSkipVerify s) l := rfl
      rw [hr, ih, startSkipVerify_refCount, svCount_cons]
      simp [svStep]
      omega
    | stop =>
      have hr : runSkipVerify s (.stop :: l)
          = runSkipVerify (stopSkipVerify s) l := rfl
      rw [hr, ih, stopSkipVerify_refCount, svCount_cons]
      simp [svStep]
      omega

theorem runSkipVerify_inv (orig : Bool) (ops : List SVOp) :
    ∀ s : SkipVerifyState, SVInv orig s →
      (∀ n, n ≤ ops.length → 0 ≤ s.refCount + svCount (ops.take n)) →
      SVInv orig (runSkipVerify s ops) := by
  induction ops with
  | nil =>
    intro s h _
    simpa [runSkipVerify] using h
  | cons a l ih =>
    intro s h hpre
    cases a with
    | start =>
      have h1 : SVInv orig (startSkipVerify s) := startSkipVerify_inv h
      have hpre1 : ∀ n, n ≤ l.length →
          0 ≤ (startSkipVerify s).refCount + svCount (l.take n) := by
        intro n hn
        have h2 := hpre (n + 1) (by simp; omega)
        rw [List.take_succ_cons, svCount_cons] at h2
        rw [startSkipVerify_refCount]
        simp [svStep] at h2
        omega
      exact ih (startSkipVerify s) h1 hpre1
    | stop =>
      have hpos : 0 < s.refCount := by
        have h2 := hpre 1 (by simp)
        rw [List.take_succ_cons, List.take_zero, svCount_cons] at h2
        simp [svStep, svCount] at h2
        omega
      have h1 : SVInv orig (stopSkipVerify s) := stopSkipVerify_inv h hpos
      have hpre1 : ∀ n, n ≤ l.length →
          0 ≤ (stopSkipVerify s).refCount + svCount (l.take n) := by
        intro n hn
        have h2 := hpre (n + 1) (by simp; omega)
        rw [List.take_succ_cons, svCount_cons] at h2
        rw [stopSkipVerify_refCount]
        simp [svStep] at h2
        omega
      exact ih (stopSkipVerify s) h1 hpre1

/-- C8: for every sequence of start and stop calls in which every
prefix has at least as many starts as stops and the whole sequence is
balanced — N starts each matched by a stop, arbitrarily interleaved —
starting from rest (reference count zero), the transport flag after
the final stop equals its original value, and after any prefix during
which the reference count is at least one the flag is true. -/
theorem skipVerify_refcounted (s0 : SkipVerifyState) (ops : List SVOp)
    (h0 : s0.refCount = 0)
    (hpre : ∀ n, n ≤ ops.length → 0 ≤ svCount (ops.take n))
    (hbal : svCount ops = 0) :
    (runSkipVerify s0 ops).insecure = s0.insecure
    ∧ ∀ n, n ≤ ops.length → 0 < svCount (ops.take n) →
        (runSkipVerify s0 (ops.take n)).insecure = true := by
  have hinv0 : SVInv s0.insecure s0 :=
    ⟨by omega, fun _ => rfl, by intro h; omega⟩
  constructor
  · have hinv := runSkipVerify_inv s0.insecure ops s0 hinv0
      (by intro n hn; rw [h0]; simpa using hpre n hn)
    have hrc : (runSkipVerify s0 ops).refCount = 0 := by
      rw [runSkipVerify_refCount, h0, hbal]
      omega
    exact hinv.2.1 hrc
  · intro n hn hposn
    have hpren : ∀ m, m ≤ (ops.take n).length →
        0 ≤ s0.refCount + svCount ((ops.take n).take m) := by
      intro m hm
      have hmn : m ≤ n := by
        have := List.length_take n ops
        omega
      rw [h0, List.take_take, Nat.min_eq_left hmn]
      simpa using hpre m (le_trans hmn hn)
    have hinv := runSkipVerify_inv s0.insecure (ops.take n) s0 hinv0 hpren
    have hrc : 0 < (runSkipVerify s0 (ops.take n)).refCount := by
      rw [runSkipVerify_refCount, h0]
      simpa using hposn
    exact (hinv.2.2 hrc).1

/-- Witness for C8: two nested dischargers started and stopped, with
the transport flag initially false: the flag is restored at the end
and is true after the first start. -/
theorem skipVerify_refcounted_witness :
    (runSkipVerify ⟨0, false, some false⟩ [.start, .start, .stop, .stop]).insecure
      = SkipVerifyState.insecure ⟨0, false, some false⟩
    ∧ (runSkipVerify ⟨0, false, some false⟩
        ([.start, .start, .stop, .stop].take 2)).insecure = true :=
  ⟨(skipVerify_refcounted ⟨0, false, some false⟩ [.start, .start, .stop, .stop]
      rfl (by decide) (by decide)).1,
   (skipVerify_refcounted ⟨0, false, some false⟩ [.start, .start, .stop, .stop]
      rfl (by decide) (by decide)).2 2 (by decide) (by decide)⟩

/-! ## C9: the authentication macaroon is always marked used

Supporting lemmas about `initOnceFunc` and `allowAnyPost`: the
identity set during the macaroon loop is always accompanied by an
index under `LoginOp`; all stored indexes are within range; the sweep
preserves the length of the used-slice list; and every branch of
`allowAnyPost` passes the marked used list through unchanged. -/

theorem initStep_authIndexes_append {I : Type} (p : CheckerCtx I)
    (s : InitState I) (i : Nat) (m : Option (List Op × List String)) (op : Op) :
    ∃ t, (initStep p s i m).authIndexes op = s.authIndexes op ++ t
      ∧ ∀ k ∈ t, k = i := by
  have happ : ∀ (s1 : InitState I) (ops : List Op) (conds : List String),
      s1.authIndexes op = s.authIndexes op →
      ∃ t, (InitState.mk
          (fun j => if j = i then conds else s1.conditions j)
          s1.identity s1.identityCaveats
          (fun o => s1.authIndexes o
            ++ (ops.filter (fun x => x = o)).map (fun _ => i))).authIndexes op
        = s.authIndexes op ++ t ∧ ∀ k ∈ t, k = i := by
    intro s1 ops conds h1
    refine ⟨(ops.filter (fun x => x = op)).map (fun _ => i), by simp [h1], ?_⟩
    intro k hk
    rw [List.mem_map] at hk
    obtain ⟨a, _, ha⟩ := hk
    exact ha.symm
  cases m with
  | none => exact ⟨[], by simp [initStep], by simp⟩
  | some om =>
    obtain ⟨ops, conds⟩ := om
    unfold initStep
    dsimp only
    by_cases hops : ops = [LoginOp]
    · rw [if_pos hops]
      cases hcc : checkConditions p LoginOp conds with
      | none =>
        exact ⟨[], by simp, by simp⟩
      | some declared =>
        dsimp only
        by_cases hid : s.identity.isSome
        · rw [if_pos hid]
          exact ⟨[], by simp, by simp⟩
        · rw [if_neg hid]
          cases hdi : p.declaredIdentity declared with
          | none => exact ⟨[], by simp, by simp⟩
          | some ident =>
            dsimp only
            exact happ { s with identity := some ident } ops conds rfl
    · rw [if_neg hops]
      dsimp only
      exact happ s ops conds rfl

theorem initStep_identity_shape {I : Type} (p : CheckerCtx I)
    (s : InitState I) (i : Nat) (m : Option (List Op × List String)) :
    (initStep p s i m).identity = s.identity
    ∨ (s.identity.isSome = false ∧ (initStep p s i m).identity.isSome
        ∧ ∃ t, (initStep p s i m).authIndexes LoginOp
            = s.authIndexes LoginOp ++ i :: t) := by
  cases m with
  | none => exact Or.inl rfl
  | some om =>
    obtain ⟨ops, conds⟩ := om
    unfold initStep
    dsimp only
    by_cases hops : ops = [LoginOp]
    · rw [if_pos hops]
      cases hcc : checkConditions p LoginOp conds with
      | none => exact Or.inl rfl
      | some declared =>
        dsimp only
        by_cases hid : s.identity.isSome
        · rw [if_pos hid]
          exact Or.inl rfl
        · rw [if_neg hid]
          cases hdi : p.declaredIdentity declared with
          | none => exact Or.inl rfl
          | some ident =>
            dsimp only
            refine Or.inr ⟨by simpa using hid, by simp, ?_⟩
            refine ⟨[], ?_⟩
            subst hops
            simp [LoginOp]
    · rw [if_neg hops]
      exact Or.inl rfl

theorem initLoopAux_login_indexed {I : Type} (p : CheckerCtx I)
    (ms : List (Option (List Op × List String))) :
    ∀ (i : Nat) (s : InitState I),
      (s.identity.isSome → s.authIndexes LoginOp ≠ []) →
      (initLoopAux p i ms s).identity.isSome →
      (initLoopAux p i ms s).authIndexes LoginOp ≠ [] := by
  induction ms with
  | nil => intro i s h; exact h
  | cons m rest ih =>
    intro i s h
    apply ih
    intro hsome
    obtain ⟨t, ht, _⟩ := initStep_authIndexes_append p s i m LoginOp
    rcases initStep_identity_shape p s i m with heq | ⟨_, _, t2, ht2⟩
    · rw [heq] at hsome
      rw [ht]
      intro hc
      exact h hsome (List.append_eq_nil.mp hc).1
    · rw [ht2]
      intro hc
      have := (List.append_eq_nil.mp hc).2
      simp at this


theorem initLoopAux_indexes_lt {I : Type} (p : CheckerCtx I)
    (ms : List (Option (List Op × List String))) :
    ∀ (i : Nat) (s : InitState I),
      (∀ op k, k ∈ s.authIndexes op → k < i) →
      ∀ op k, k ∈ (initLoopAux p i ms s).authIndexes op → k < i + ms.length := by
  induction ms with
  | nil =>
    intro i s h op k hk
    have := h op k hk
    simpa using Nat.lt_of_lt_of_le this (by simp)
  | cons m rest ih =>
    intro i s h op k hk
    have hstep : ∀ op k, k ∈ (initStep p s i m).authIndexes op → k < i + 1 := by
      intro op k hk
      obtain ⟨t, ht, hti⟩ := initStep_authIndexes_append p s i m op
      rw [ht] at hk
      rcases List.mem_append.mp hk with h1 | h1
      · exact Nat.lt_succ_of_lt (h op k h1)
      · rw [hti k h1]
        exact Nat.lt_succ_self i
    have := ih (i + 1) (initStep p s i m) hstep op k hk
    rw [List.length_cons]
    omega

theorem sweepOp_used_length {I : Type} (p : CheckerCtx I) (s : InitState I)
    (op : Op) : ∀ (idxs : List Nat) (used : List Bool),
      (sweepOp p s op idxs used).2.length = used.length := by
  intro idxs
  induction idxs with
  | nil => intro used; rfl
  | cons mindex rest ih =>
    intro used
    unfold sweepOp
    by_cases hc : (checkConditions p op (s.conditions mindex)).isSome
    · simp [hc, List.length_set]
    · simp [hc, ih used]

theorem sweepOpsAux_used_length {I : Type} (p : CheckerCtx I) (s : InitState I)
    (numOps : Nat) : ∀ (l : List Op) (acc : List Bool × List Bool),
      (sweepOpsAux p s numOps l acc).2.length = acc.2.length := by
  intro l
  induction l with
  | nil => intro acc; rfl
  | cons op rest ih =>
    intro acc
    unfold sweepOpsAux
    by_cases hc : op = LoginOp ∧ 1 < numOps
    · rw [if_pos hc]
      exact ih _
    · rw [if_neg hc]
      dsimp only
      rw [ih _]
      exact sweepOp_used_length p s op (s.authIndexes op) acc.2

theorem sweepOps_used_length {I : Type} (p : CheckerCtx I) (s : InitState I)
    (ops : List Op) : (sweepOps p s ops).2.length = p.macOps.length := by
  unfold sweepOps
  rw [sweepOpsAux_used_length]
  exact List.length_replicate _ _

theorem getD_set_self (l : List Bool) (i : Nat) (b : Bool) (h : i < l.length) :
    (l.set i b).getD i false = b := by
  rw [List.getD_eq_getElem?_getD, List.getElem?_set_self (by simpa using h)]
  rfl


theorem markLogin_set {I : Type} (s : InitState I) (used : List Bool)
    (v : I) (idx : Nat) (rest : List Nat)
    (hid : s.identity = some v)
    (hidx : s.authIndexes LoginOp = idx :: rest) :
    markLogin s used = some (used.set idx true) := by
  unfold markLogin
  rw [hid, hidx]

theorem allowAnyPost_used {I : Type} (p : CheckerCtx I) (s : InitState I)
    (ops : List Op) (u : List Bool)
    (hm : markLogin s (sweepOps p s ops).2 = some u) :
    ∃ authed err, allowAnyPost p s ops = .result authed u err := by
  unfold allowAnyPost
  simp only [hm]
  split
  · exact ⟨_, _, rfl⟩
  · split
    · exact ⟨_, _, rfl⟩
    · split
      · exact ⟨_, _, rfl⟩
      · unfold allowAnyFinish
        split
        · exact ⟨_, _, rfl⟩
        · split
          · exact ⟨_, _, rfl⟩
          · split
            · exact ⟨_, _, rfl⟩
            · exact ⟨_, _, rfl⟩

theorem initOnceFunc_of_loop_identity {I : Type} (p : CheckerCtx I)
    (hloop : (initLoop p).identity.isSome) :
    initOnceFunc p = .ok (initLoop p) := by
  unfold initOnceFunc
  rw [if_neg]
  simp [hloop, Option.isNone_iff_eq_none]
  intro hc
  rw [hc] at hloop
  simp at hloop


/-- C9: whenever init established the identity from a login macaroon
(the post-loop identity is set), every `allowAny` call — for any
requested operation list, whether or not it contains `LoginOp` —
reaches the result case, marks the first macaroon indexed under
`LoginOp` as used, and the `AuthInfo` built by `AllowAny` includes
that authentication macaroon. -/
theorem authnMacaroon_marked_used {I : Type} (p : CheckerCtx I) (ops : List Op)
    (hloop : (initLoop p).identity.isSome) :
    match allowAny p ops with
    | .result authed used err =>
        used.getD (((initLoop p).authIndexes LoginOp).headD 0) false = true
        ∧ ((initLoop p).authIndexes LoginOp).headD 0
            ∈ (newAuthInfo (initLoop p).identity used).macaroons
        ∧ AllowAnyM p ops
            = some (newAuthInfo (initLoop p).identity used, authed, err)
    | _ => False := by
  obtain ⟨v, hv⟩ := Option.isSome_iff_exists.mp hloop
  have hne : (initLoop p).identity.isSome →
      (initLoop p).authIndexes LoginOp ≠ [] := by
    apply initLoopAux_login_indexed p p.macOps 0 (initState0 I)
    intro h
    simp [initState0] at h
  obtain ⟨idx, rest, hidx⟩ := List.exists_cons_of_ne_nil (hne hloop)
  have hio : initOnceFunc p = .ok (initLoop p) :=
    initOnceFunc_of_loop_identity p hloop
  have hm : markLogin (initLoop p) (sweepOps p (initLoop p) ops).2
      = some ((sweepOps p (initLoop p) ops).2.set idx true) :=
    markLogin_set (initLoop p) _ v idx rest hv hidx
  obtain ⟨authed, err, hpost⟩ := allowAnyPost_used p (initLoop p) ops _ hm
  have hall : allowAny p ops
      = .result authed ((sweepOps p (initLoop p) ops).2.set idx true) err := by
    unfold allowAny
    rw [hio]
    exact hpost
  rw [hall]
  dsimp only
  have hidxlt : idx < p.macOps.length := by
    have hb := initLoopAux_indexes_lt p p.macOps 0 (initState0 I)
      (by intro op k hk; simp [initState0] at hk) LoginOp idx
      (by rw [show initLoopAux p 0 p.macOps (initState0 I) = initLoop p from rfl, hidx]; exact List.mem_cons_self idx rest)
    omega
  have hlen : (sweepOps p (initLoop p) ops).2.length = p.macOps.length :=
    sweepOps_used_length p (initLoop p) ops
  have hget : ((sweepOps p (initLoop p) ops).2.set idx true).getD idx false
      = true := by
    apply getD_set_self
    omega
  rw [hidx]
  dsimp only [List.headD]
  refine ⟨hget, ?_, ?_⟩
  · unfold newAuthInfo
    dsimp only
    rw [List.mem_filter, List.mem_range, List.length_set]
    exact ⟨by omega, hget⟩
  · unfold AllowAnyM
    rw [hio]
    dsimp only
    rw [hpost]


/-- Witness for C9: in `c9Ctx` the identity comes from the login
macaroon at index 0, and an `Allow` request for `opRead` alone still
marks macaroon 0 used and returns it in the `AuthInfo`. -/
theorem authnMacaroon_marked_used_witness :
    (([true, true] : List Bool)).getD
        (((initLoop c9Ctx).authIndexes LoginOp).headD 0) false = true
    ∧ ((initLoop c9Ctx).authIndexes LoginOp).headD 0
        ∈ (newAuthInfo (initLoop c9Ctx).identity [true, true]).macaroons
    ∧ AllowAnyM c9Ctx [opRead]
        = some (newAuthInfo (initLoop c9Ctx).identity [true, true], [true], none) := by
  have h := authnMacaroon_marked_used c9Ctx [opRead] (by decide)
  have hev : allowAny c9Ctx [opRead] = .result [true] [true, true] none := by
    decide
  rw [hev] at h
  exact h

/-! ## C4: slices failing MacaroonOps are silently skipped

The simulation argument: running `initOnceFunc` over
`l₁ ++ none :: l₂` produces the same state as running it over
`l₁ ++ l₂`, up to shifting the macaroon indexes at and above
`l₁.length` by one, and the same holds for the whole `allowAny`
pipeline (sweep, login marking, authorizer, outcome). -/

def shiftIdx (n k : Nat) : Nat := if k < n then k else k + 1

theorem shiftIdx_ne (n k : Nat) : shiftIdx n k ≠ n := by
  unfold shiftIdx
  split <;> omega

theorem shiftIdx_inj {n : Nat} : Function.Injective (shiftIdx n) := by
  intro a b h
  unfold shiftIdx at h
  split at h <;> split at h <;> omega

theorem shiftIdx_of_le {n j : Nat} (h : n ≤ j) : shiftIdx n j = j + 1 := by
  unfold shiftIdx
  rw [if_neg (by omega)]

/-- The relation between the init state over the macaroon list with
the failing slice removed (`s`) and the init state over the list with
the failing slice inserted at position `n` (`t`): identities and
identity caveats agree, conditions and auth indexes agree up to the
index shift, and the inserted slice contributes nothing. -/
def InitStateShift {I : Type} (n : Nat) (s t : InitState I) : Prop :=
  t.identity = s.identity
  ∧ t.identityCaveats = s.identityCaveats
  ∧ (∀ k, t.conditions (shiftIdx n k) = s.conditions k)
  ∧ t.conditions n = []
  ∧ (∀ op, t.authIndexes op = (s.authIndexes op).map (shiftIdx n))

theorem initStep_shift {I : Type} (p : CheckerCtx I) (n j : Nat) (hj : n ≤ j)
    (s t : InitState I) (hst : InitStateShift n s t)
    (m : Option (List Op × List String)) :
    InitStateShift n (initStep p s j m) (initStep p t (j + 1) m) := by
  obtain ⟨hid, hic, hcs, hcn, hai⟩ := hst
  -- the common indexing update applied to related intermediate states
  have hwrite : ∀ (s1 t1 : InitState I) (ops : List Op) (conds : List String),
      t1.identity = s1.identity → t1.identityCaveats = s1.identityCaveats →
      (∀ k, t1.conditions (shiftIdx n k) = s1.conditions k) →
      t1.conditions n = [] →
      (∀ op, t1.authIndexes op = (s1.authIndexes op).map (shiftIdx n)) →
      InitStateShift n
        (InitState.mk (fun k => if k = j then conds else s1.conditions k)
          s1.identity s1.identityCaveats
          (fun op => s1.authIndexes op
            ++ (ops.filter (fun x => x = op)).map (fun _ => j)))
        (InitState.mk (fun k => if k = j + 1 then conds else t1.conditions k)
          t1.identity t1.identityCaveats
          (fun op => t1.authIndexes op
            ++ (ops.filter (fun x => x = op)).map (fun _ => j + 1))) := by
    intro s1 t1 ops conds h1 h2 h3 h4 h5
    refine ⟨h1, h2, ?_, ?_, ?_⟩
    · intro k
      dsimp only
      by_cases hk : k = j
      · subst hk
        rw [if_pos (shiftIdx_of_le hj), if_pos rfl]
      · have hk2 : shiftIdx n k ≠ j + 1 := by
          rw [← shiftIdx_of_le hj]
          intro hc
          exact hk (shiftIdx_inj hc)
        rw [if_neg hk2, if_neg hk]
        exact h3 k
    · dsimp only
      rw [if_neg (by omega)]
      exact h4
    · intro op
      dsimp only
      rw [h5 op, List.map_append, List.map_map]
      congr 1
      apply List.map_congr_left
      intro a _
      exact (shiftIdx_of_le hj).symm ▸ rfl
  cases m with
  | none => exact ⟨hid, hic, hcs, hcn, hai⟩
  | some om =>
    obtain ⟨ops, conds⟩ := om
    unfold initStep
    dsimp only
    by_cases hops : ops = [LoginOp]
    · rw [if_pos hops, if_pos hops]
      cases hcc : checkConditions p LoginOp conds with
      | none =>
        dsimp only
        exact ⟨hid, hic, hcs, hcn, hai⟩
      | some declared =>
        dsimp only
        by_cases hsome : s.identity.isSome
        · have htome : t.identity.isSome := by rw [hid]; exact hsome
          rw [if_pos hsome, if_pos htome]
          exact ⟨hid, hic, hcs, hcn, hai⟩
        · have htome : ¬ t.identity.isSome = true := by rw [hid]; exact hsome
          rw [if_neg hsome, if_neg htome]
          cases hdi : p.declaredIdentity declared with
          | none =>
            dsimp only
            exact ⟨hid, hic, hcs, hcn, hai⟩
          | some ident =>
            dsimp only
            exact hwrite { s with identity := some ident }
              { t with identity := some ident } ops conds (by simp [hid])
              (by simpa using hic) (by simpa using hcs) (by simpa using hcn)
              (by simpa using hai)
    · rw [if_neg hops, if_neg hops]
      dsimp only
      exact hwrite s t ops conds hid hic hcs hcn hai

theorem initLoopAux_shift {I : Type} (p : CheckerCtx I) (n : Nat) :
    ∀ (ms : List (Option (List Op × List String))) (j : Nat), n ≤ j →
      ∀ (s t : InitState I), InitStateShift n s t →
      InitStateShift n (initLoopAux p j ms s) (initLoopAux p (j + 1) ms t) := by
  intro ms
  induction ms with
  | nil => intro j _ s t h; exact h
  | cons m rest ih =>
    intro j hj s t h
    exact ih (j + 1) (by omega) _ _ (initStep_shift p n j hj s t h m)

theorem initStep_macOps_irrel {I : Type} (p : CheckerCtx I)
    (x : List (Option (List Op × List String))) (s : InitState I) (i : Nat)
    (m : Option (List Op × List String)) :
    initStep { p with macOps := x } s i m = initStep p s i m := rfl

theorem initLoopAux_macOps_irrel {I : Type} (p : CheckerCtx I)
    (x : List (Option (List Op × List String))) :
    ∀ (ms : List (Option (List Op × List String))) (i : Nat) (s : InitState I),
      initLoopAux { p with macOps := x } i ms s = initLoopAux p i ms s := by
  intro ms
  induction ms with
  | nil => intro i s; rfl
  | cons m rest ih =>
    intro i s
    show initLoopAux { p with macOps := x } (i + 1) rest
        (initStep { p with macOps := x } s i m) = _
    rw [initStep_macOps_irrel, ih]
    rfl

theorem initLoopAux_append {I : Type} (p : CheckerCtx I)
    (l₁ l₂ : List (Option (List Op × List String))) :
    ∀ (i : Nat) (s : InitState I),
      initLoopAux p i (l₁ ++ l₂) s
        = initLoopAux p (i + l₁.length) l₂ (initLoopAux p i l₁ s) := by
  induction l₁ with
  | nil => intro i s; simp [initLoopAux]
  | cons m rest ih =>
    intro i s
    show initLoopAux p (i + 1) (rest ++ l₂) (initStep p s i m) = _
    rw [ih (i + 1)]
    congr 1
    rw [List.length_cons]
    omega

theorem initStep_conditions_shape {I : Type} (p : CheckerCtx I)
    (s : InitState I) (i : Nat) (m : Option (List Op × List String))
    (k : Nat) (hk : k ≠ i) :
    (initStep p s i m).conditions k = s.conditions k := by
  cases m with
  | none => rfl
  | some om =>
    obtain ⟨ops, conds⟩ := om
    unfold initStep
    dsimp only
    by_cases hops : ops = [LoginOp]
    · rw [if_pos hops]
      cases hcc : checkConditions p LoginOp conds with
      | none => rfl
      | some declared =>
        dsimp only
        by_cases hsome : s.identity.isSome
        · rw [if_pos hsome]
        · rw [if_neg hsome]
          cases hdi : p.declaredIdentity declared with
          | none => rfl
          | some ident =>
            dsimp only
            rw [if_neg hk]
    · rw [if_neg hops]
      dsimp only
      rw [if_neg hk]

theorem initStep_identityCaveats {I : Type} (p : CheckerCtx I)
    (s : InitState I) (i : Nat) (m : Option (List Op × List String)) :
    (initStep p s i m).identityCaveats = s.identityCaveats := by
  cases m with
  | none => rfl
  | some om =>
    obtain ⟨ops, conds⟩ := om
    unfold initStep
    dsimp only
    by_cases hops : ops = [LoginOp]
    · rw [if_pos hops]
      cases hcc : checkConditions p LoginOp conds with
      | none => rfl
      | some declared =>
        dsimp only
        by_cases hsome : s.identity.isSome
        · rw [if_pos hsome]
        · rw [if_neg hsome]
          cases hdi : p.declaredIdentity declared with
          | none => rfl
          | some ident => rfl
    · rw [if_neg hops]

/-- All per-macaroon data stored so far lies below index `i`. -/
def IndexesBelow {I : Type} (i : Nat) (s : InitState I) : Prop :=
  (∀ k, i ≤ k → s.conditions k = [])
  ∧ (∀ op k, k ∈ s.authIndexes op → k < i)

theorem initStep_support {I : Type} (p : CheckerCtx I) (s : InitState I)
    (i : Nat) (m : Option (List Op × List String))
    (h : IndexesBelow i s) : IndexesBelow (i + 1) (initStep p s i m) := by
  constructor
  · intro k hk
    rw [initStep_conditions_shape p s i m k (by omega)]
    exact h.1 k (by omega)
  · intro op k hk
    obtain ⟨t, ht, hti⟩ := initStep_authIndexes_append p s i m op
    rw [ht] at hk
    rcases List.mem_append.mp hk with h1 | h1
    · exact Nat.lt_succ_of_lt (h.2 op k h1)
    · rw [hti k h1]
      exact Nat.lt_succ_self i

theorem initLoopAux_support {I : Type} (p : CheckerCtx I) :
    ∀ (ms : List (Option (List Op × List String))) (i : Nat) (s : InitState I),
      IndexesBelow i s → IndexesBelow (i + ms.length) (initLoopAux p i ms s) := by
  intro ms
  induction ms with
  | nil => intro i s h; simpa using h
  | cons m rest ih =>
    intro i s h
    have := ih (i + 1) (initStep p s i m) (initStep_support p s i m h)
    rw [List.length_cons]
    have heq : i + (rest.length + 1) = (i + 1) + rest.length := by omega
    rw [heq]
    exact this

theorem InitStateShift_self {I : Type} (n : Nat) (s : InitState I)
    (h : IndexesBelow n s) : InitStateShift n s s := by
  refine ⟨rfl, rfl, ?_, h.1 n (le_refl n), ?_⟩
  · intro k
    unfold shiftIdx
    split
    · rfl
    · rw [h.1 (k + 1) (by omega), h.1 k (by omega)]
  · intro op
    have : (s.authIndexes op).map (shiftIdx n) = (s.authIndexes op).map id := by
      apply List.map_congr_left
      intro a ha
      unfold shiftIdx
      rw [if_pos (h.2 op a ha)]
      rfl
    rw [this, List.map_id]

theorem initLoop_shift {I : Type} (p : CheckerCtx I)
    (l₁ l₂ : List (Option (List Op × List String)))
    (hsplit : p.macOps = l₁ ++ none :: l₂) :
    InitStateShift l₁.length
      (initLoop { p with macOps := l₁ ++ l₂ }) (initLoop p) := by
  have hs1 : IndexesBelow l₁.length (initLoopAux p 0 l₁ (initState0 I)) := by
    have h := initLoopAux_support p l₁ 0 (initState0 I)
      ⟨fun k _ => rfl, by intro op k hk; simp [initState0] at hk⟩
    simpa using h
  have hq : initLoop { p with macOps := l₁ ++ l₂ }
      = initLoopAux p l₁.length l₂ (initLoopAux p 0 l₁ (initState0 I)) := by
    show initLoopAux { p with macOps := l₁ ++ l₂ } 0 (l₁ ++ l₂) (initState0 I) = _
    rw [initLoopAux_macOps_irrel, initLoopAux_append]
    simp
  have hp : initLoop p
      = initLoopAux p (l₁.length + 1) l₂ (initLoopAux p 0 l₁ (initState0 I)) := by
    show initLoopAux p 0 p.macOps (initState0 I) = _
    rw [hsplit, initLoopAux_append]
    show initLoopAux p (0 + l₁.length + 1) l₂
        (initStep p (initLoopAux p 0 l₁ (initState0 I)) (0 + l₁.length) none) = _
    rw [Nat.zero_add]
    rfl
  rw [hq, hp]
  exact initLoopAux_shift p l₁.length l₂ l₁.length (le_refl _) _ _
    (InitStateShift_self l₁.length _ hs1)

theorem getD_set_ne (l : List Bool) (i j : Nat) (b : Bool) (h : i ≠ j) :
    (l.set i b).getD j false = l.getD j false := by
  rw [List.getD_eq_getElem?_getD, List.getD_eq_getElem?_getD,
    List.getElem?_set_ne h]

theorem getD_replicate (m k : Nat) : (List.replicate m false).getD k false = false := by
  rw [List.getD_eq_getElem?_getD]
  rcases Nat.lt_or_ge k m with h | h
  · rw [List.getElem?_replicate, if_pos h]
    rfl
  · rw [List.getElem?_eq_none (by simpa using h)]
    rfl

/-- The relation between the used-slice lists of the two runs: the
primed run has one extra (never used) entry at position `n`, and all
other entries agree up to the index shift. -/
def UsedShift (n : Nat) (u u' : List Bool) : Prop :=
  n ≤ u.length
  ∧ u'.length = u.length + 1
  ∧ u'.getD n false = false
  ∧ ∀ k, u'.getD (shiftIdx n k) false = u.getD k false

theorem usedShift_replicate (n m : Nat) (h : n ≤ m) :
    UsedShift n (List.replicate m false) (List.replicate (m + 1) false) := by
  refine ⟨by simpa using h, by simp, getD_replicate _ _, ?_⟩
  intro k
  rw [getD_replicate, getD_replicate]

theorem usedShift_set (n : Nat) (u u' : List Bool) (h : UsedShift n u u')
    (k : Nat) (hk : k < u.length) :
    UsedShift n (u.set k true) (u'.set (shiftIdx n k) true) := by
  obtain ⟨hn, hl, hz, hs⟩ := h
  have hk' : shiftIdx n k < u'.length := by
    unfold shiftIdx
    split <;> omega
  refine ⟨by simpa using hn, by simp [hl], ?_, ?_⟩
  · rw [getD_set_ne _ _ _ _ (shiftIdx_ne n k)]
    exact hz
  · intro k0
    by_cases hkk : k0 = k
    · subst hkk
      rw [getD_set_self _ _ _ hk', getD_set_self _ _ _ hk]
    · have : shiftIdx n k ≠ shiftIdx n k0 := fun hc => hkk (shiftIdx_inj hc).symm
      rw [getD_set_ne _ _ _ _ this, getD_set_ne _ _ _ _ (fun hc => hkk hc.symm)]
      exact hs k0

theorem sweepOp_shift {I : Type} (pq pp : CheckerCtx I) (n : Nat)
    (s t : InitState I)
    (hcond : ∀ k, t.conditions (shiftIdx n k) = s.conditions k)
    (hcc : ∀ op conds, checkConditions pq op conds = checkConditions pp op conds)
    (op : Op) :
    ∀ (idxs : List Nat) (u u' : List Bool), UsedShift n u u' →
      (∀ x ∈ idxs, x < u.length) →
      (sweepOp pp t op (idxs.map (shiftIdx n)) u').1
          = (sweepOp pq s op idxs u).1
      ∧ UsedShift n (sweepOp pq s op idxs u).2
          (sweepOp pp t op (idxs.map (shiftIdx n)) u').2 := by
  intro idxs
  induction idxs with
  | nil => intro u u' hu _; exact ⟨rfl, hu⟩
  | cons mindex rest ih =>
    intro u u' hu hb
    have hcsame : checkConditions pp op (t.conditions (shiftIdx n mindex))
        = checkConditions pq op (s.conditions mindex) := by
      rw [hcond mindex, hcc]
    rw [List.map_cons]
    simp only [sweepOp]
    by_cases hck : (checkConditions pq op (s.conditions mindex)).isSome
    · rw [if_pos (by rw [hcsame]; exact hck), if_pos hck]
      exact ⟨rfl, usedShift_set n u u' hu mindex (hb mindex (by simp))⟩
    · rw [if_neg (by rw [hcsame]; exact hck), if_neg hck]
      exact ih u u' hu (fun x hx => hb x (by simp [hx]))

theorem sweepOpsAux_shift {I : Type} (pq pp : CheckerCtx I) (n : Nat)
    (s t : InitState I)
    (hcond : ∀ k, t.conditions (shiftIdx n k) = s.conditions k)
    (hai : ∀ op, t.authIndexes op = (s.authIndexes op).map (shiftIdx n))
    (hcc : ∀ op conds, checkConditions pq op conds = checkConditions pp op conds)
    (numOps : Nat) :
    ∀ (l : List Op) (acc1 : List Bool) (u u' : List Bool), UsedShift n u u' →
      (∀ op x, x ∈ s.authIndexes op → x < u.length) →
      (sweepOpsAux pp t numOps l (acc1, u')).1
          = (sweepOpsAux pq s numOps l (acc1, u)).1
      ∧ UsedShift n (sweepOpsAux pq s numOps l (acc1, u)).2
          (sweepOpsAux pp t numOps l (acc1, u')).2 := by
  intro l
  induction l with
  | nil => intro acc1 u u' hu _; exact ⟨rfl, hu⟩
  | cons op rest ih =>
    intro acc1 u u' hu hb
    simp only [sweepOpsAux]
    by_cases hlo : op = LoginOp ∧ 1 < numOps
    · rw [if_pos hlo, if_pos hlo]
      exact ih (acc1 ++ [false]) u u' hu hb
    · rw [if_neg hlo, if_neg hlo]
      obtain ⟨h1, h2⟩ := sweepOp_shift pq pp n s t hcond hcc op
        (s.authIndexes op) u u' hu (fun x hx => hb op x hx)
      rw [hai op, h1]
      have hlen : (sweepOp pq s op (s.authIndexes op) u).2.length = u.length :=
        sweepOp_used_length pq s op (s.authIndexes op) u
      exact ih (acc1 ++ [(sweepOp pq s op (s.authIndexes op) u).1]) _ _ h2
        (fun op2 x hx => by rw [hlen]; exact hb op2 x hx)

theorem markLogin_shift {I : Type} (n : Nat) (s t : InitState I)
    (u u' : List Bool)
    (hid : t.identity = s.identity)
    (hai : ∀ op, t.authIndexes op = (s.authIndexes op).map (shiftIdx n))
    (hu : UsedShift n u u')
    (hb : ∀ op k, k ∈ s.authIndexes op → k < u.length) :
    match markLogin s u, markLogin t u' with
    | none, none => True
    | some w, some w' => UsedShift n w w'
    | _, _ => False := by
  unfold markLogin
  rw [hid, hai LoginOp]
  cases hsid : s.identity with
  | none => exact hu
  | some v =>
    dsimp only
    cases hix : s.authIndexes LoginOp with
    | nil => trivial
    | cons idx rest =>
      rw [List.map_cons]
      dsimp only
      exact usedShift_set n u u' hu idx
        (hb LoginOp idx (by rw [hix]; exact List.mem_cons_self idx rest))

theorem allowAnyFinish_shape {I : Type} (identity : Option I)
    (idCavs : List Caveat) (ops stillNeed : List Op) (caveats : List Caveat)
    (a : List Bool) :
    ∃ E, ∀ u, allowAnyFinish identity idCavs ops stillNeed caveats a u
      = .result a u E := by
  by_cases h1 : stillNeed = [] ∧ caveats = []
  · exact ⟨none, fun u => by unfold allowAnyFinish; rw [if_pos h1]⟩
  · by_cases h2 : identity.isNone ∧ idCavs ≠ []
    · exact ⟨some (.dischargeRequired "authentication required" [LoginOp] idCavs),
        fun u => by unfold allowAnyFinish; rw [if_neg h1, if_pos h2]⟩
    · by_cases h3 : caveats = []
      · exact ⟨some .permissionDenied,
          fun u => by unfold allowAnyFinish; rw [if_neg h1, if_neg h2, if_pos h3]⟩
      · exact ⟨some (.dischargeRequired "some operations have extra caveats" ops
            caveats),
          fun u => by unfold allowAnyFinish; rw [if_neg h1, if_neg h2, if_neg h3]⟩

theorem allowAnyPost_congr {I : Type} (pq pp : CheckerCtx I)
    (s t : InitState I) (ops : List Op) (uq up : List Bool)
    (hid : t.identity = s.identity)
    (hic : t.identityCaveats = s.identityCaveats)
    (hau : pq.authorize = pp.authorize)
    (hsw : (sweepOps pp t ops).1 = (sweepOps pq s ops).1)
    (hmq : markLogin s (sweepOps pq s ops).2 = some uq)
    (hmp : markLogin t (sweepOps pp t ops).2 = some up) :
    ∃ A E, allowAnyPost pq s ops = .result A uq E
      ∧ allowAnyPost pp t ops = .result A up E := by
  simp only [allowAnyPost, hmq, hmp, hsw, hid, hic, ← hau]
  by_cases h1 : (((sweepOps pq s ops).1.filter (fun b => b)).length = ops.length)
  · rw [if_pos h1, if_pos h1]
    exact ⟨_, none, rfl, rfl⟩
  · rw [if_neg h1, if_neg h1]
    cases hz : pq.authorize s.identity
        (((List.range ops.length).filter
          (fun i => (sweepOps pq s ops).1.getD i false = false)).map
            (fun i => ops.getD i LoginOp)) with
    | error e =>
      exact ⟨_, _, rfl, rfl⟩
    | ok oc =>
      obtain ⟨oks, caveats⟩ := oc
      dsimp only
      by_cases h2 : oks.length
          ≠ (((List.range ops.length).filter
            (fun i => (sweepOps pq s ops).1.getD i false = false)).map
              (fun i => ops.getD i LoginOp)).length
      · rw [if_pos h2, if_pos h2]
        exact ⟨_, _, rfl, rfl⟩
      · rw [if_neg h2, if_neg h2]
        obtain ⟨E, hE⟩ := allowAnyFinish_shape s.identity s.identityCaveats ops
          (((((List.range ops.length).filter
            (fun i => (sweepOps pq s ops).1.getD i false = false)).zip oks).filter
              (fun q => ¬ q.2)).map (fun q => ops.getD q.1 LoginOp))
          caveats
          (((((List.range ops.length).filter
            (fun i => (sweepOps pq s ops).1.getD i false = false)).zip oks).filter
              (fun q => q.2)).foldl (fun a q => a.set q.1 true)
            (sweepOps pq s ops).1)
        exact ⟨_, E, hE uq, hE up⟩

/-- C4: a macaroon slice on which `MacaroonOps` fails (position
`l₁.length` in the presented list) is skipped during initialization
without failing: the init state is that of the same context without
the slice, up to the index shift; the slice contributes no conditions
and appears in no `authIndexes` entry; `initOnceFunc` fails in one run
exactly when it fails in the other, with the same error; and every
`allowAny` call returns the same authorization outcome (same `authed`
and classification error, with the used-slice lists agreeing up to the
shift and the failing slice never used). -/
theorem failedMacaroonOps_slice_skipped {I : Type} (p : CheckerCtx I)
    (l₁ l₂ : List (Option (List Op × List String)))
    (hsplit : p.macOps = l₁ ++ none :: l₂) :
    InitStateShift l₁.length
      (initLoop { p with macOps := l₁ ++ l₂ }) (initLoop p)
    ∧ (initLoop p).conditions l₁.length = []
    ∧ (∀ op, l₁.length ∉ (initLoop p).authIndexes op)
    ∧ (∀ e, initOnceFunc p = .error e
        ↔ initOnceFunc { p with macOps := l₁ ++ l₂ } = .error e)
    ∧ (∀ ops,
        match allowAny { p with macOps := l₁ ++ l₂ } ops, allowAny p ops with
        | .initError e, .initError e2 => e2 = e
        | .panicNoLoginIndex, .panicNoLoginIndex => True
        | .result a u e, .result a2 u2 e2 =>
            a2 = a ∧ e2 = e ∧ UsedShift l₁.length u u2
        | _, _ => False) := by
  have hrel := initLoop_shift p l₁ l₂ hsplit
  obtain ⟨hid, hic, hcond, hcn, hai⟩ := hrel
  have hmac : p.macOps.length
      = ({ p with macOps := l₁ ++ l₂ } : CheckerCtx I).macOps.length + 1 := by
    rw [hsplit]
    show (l₁ ++ none :: l₂).length = (l₁ ++ l₂).length + 1
    simp
    omega
  have hn : l₁.length ≤ ({ p with macOps := l₁ ++ l₂ } : CheckerCtx I).macOps.length := by
    show l₁.length ≤ (l₁ ++ l₂).length
    simp
  refine ⟨⟨hid, hic, hcond, hcn, hai⟩, hcn, ?_, ?_, ?_⟩
  · intro op hc
    rw [hai op] at hc
    rw [List.mem_map] at hc
    obtain ⟨k, _, hk⟩ := hc
    exact shiftIdx_ne l₁.length k hk
  · intro e
    cases hI : (initLoop { p with macOps := l₁ ++ l₂ }).identity with
    | some v =>
      have hIp : (initLoop p).identity = some v := by rw [hid, hI]
      simp only [initOnceFunc]
      rw [hI, hIp]
      simp
    | none =>
      have hIp : (initLoop p).identity = none := by rw [hid, hI]
      simp only [initOnceFunc]
      rw [hI, hIp]
      cases hifc : p.identityFromContext with
      | error msg => simp
      | ok pr =>
        obtain ⟨ident, cavs⟩ := pr
        simp
  · intro ops
    -- establish the post-init states and their relation
    have hmain : ∀ (sq tp : InitState I),
        initOnceFunc { p with macOps := l₁ ++ l₂ } = .ok sq →
        initOnceFunc p = .ok tp →
        InitStateShift l₁.length sq tp →
        sq.authIndexes = (initLoop { p with macOps := l₁ ++ l₂ }).authIndexes →
        match allowAny { p with macOps := l₁ ++ l₂ } ops, allowAny p ops with
        | .initError e, .initError e2 => e2 = e
        | .panicNoLoginIndex, .panicNoLoginIndex => True
        | .result a u e, .result a2 u2 e2 =>
            a2 = a ∧ e2 = e ∧ UsedShift l₁.length u u2
        | _, _ => False := by
      intro sq tp hoq hop hst hsqa
      obtain ⟨hid2, hic2, hcond2, hcn2, hai2⟩ := hst
      have hbound : ∀ op k, k ∈ sq.authIndexes op →
          k < ({ p with macOps := l₁ ++ l₂ } : CheckerCtx I).macOps.length := by
        intro op k hk
        rw [hsqa] at hk
        have hb := initLoopAux_indexes_lt { p with macOps := l₁ ++ l₂ }
          ({ p with macOps := l₁ ++ l₂ } : CheckerCtx I).macOps 0 (initState0 I)
          (by intro op2 k2 hk2; simp [initState0] at hk2) op k hk
        omega
      have hu0 : UsedShift l₁.length
          (List.replicate ({ p with macOps := l₁ ++ l₂ } : CheckerCtx I).macOps.length false)
          (List.replicate p.macOps.length false) := by
        rw [hmac]
        exact usedShift_replicate _ _ hn
      obtain ⟨hsw1, hsw2⟩ := sweepOpsAux_shift { p with macOps := l₁ ++ l₂ } p
        l₁.length sq tp hcond2 hai2 (fun _ _ => rfl) ops.length ops []
        (List.replicate ({ p with macOps := l₁ ++ l₂ } : CheckerCtx I).macOps.length false)
        (List.replicate p.macOps.length false) hu0
        (by intro op x hx
            rw [List.length_replicate]
            exact hbound op x hx)
      have hswq1 : (sweepOps p tp ops).1
          = (sweepOps { p with macOps := l₁ ++ l₂ } sq ops).1 := hsw1
      have hswq2 : UsedShift l₁.length
          (sweepOps { p with macOps := l₁ ++ l₂ } sq ops).2
          (sweepOps p tp ops).2 := hsw2
      have hlenq : (sweepOps { p with macOps := l₁ ++ l₂ } sq ops).2.length
          = ({ p with macOps := l₁ ++ l₂ } : CheckerCtx I).macOps.length :=
        sweepOps_used_length _ sq ops
      have hml := markLogin_shift l₁.length sq tp
        (sweepOps { p with macOps := l₁ ++ l₂ } sq ops).2
        (sweepOps p tp ops).2 hid2 hai2 hswq2
        (by intro op k hk
            rw [hlenq]
            exact hbound op k hk)
      have haq : allowAny { p with macOps := l₁ ++ l₂ } ops
          = allowAnyPost { p with macOps := l₁ ++ l₂ } sq ops := by
        unfold allowAny
        rw [hoq]
      have hap : allowAny p ops = allowAnyPost p tp ops := by
        unfold allowAny
        rw [hop]
      rw [haq, hap]
      cases hmq : markLogin sq (sweepOps { p with macOps := l₁ ++ l₂ } sq ops).2 with
      | none =>
        cases hmp : markLogin tp (sweepOps p tp ops).2 with
        | none =>
          have e1 : allowAnyPost { p with macOps := l₁ ++ l₂ } sq ops
              = .panicNoLoginIndex := by
            simp only [allowAnyPost, hmq]
          have e2 : allowAnyPost p tp ops = .panicNoLoginIndex := by
            simp only [allowAnyPost, hmp]
          rw [e1, e2]
          trivial
        | some up =>
          rw [hmq, hmp] at hml
          exact hml.elim
      | some uq =>
        cases hmp : markLogin tp (sweepOps p tp ops).2 with
        | none =>
          rw [hmq, hmp] at hml
          exact hml.elim
        | some up =>
          rw [hmq, hmp] at hml
          obtain ⟨A, E, hq2, hp2⟩ := allowAnyPost_congr
            { p with macOps := l₁ ++ l₂ } p sq tp ops uq up hid2 hic2 rfl
            hswq1 hmq hmp
          rw [hq2, hp2]
          exact ⟨rfl, rfl, hml⟩
    cases hI : (initLoop { p with macOps := l₁ ++ l₂ }).identity with
    | some v =>
      have hIp : (initLoop p).identity = some v := by rw [hid, hI]
      have hoq : initOnceFunc { p with macOps := l₁ ++ l₂ }
          = .ok (initLoop { p with macOps := l₁ ++ l₂ }) := by
        simp only [initOnceFunc]
        rw [hI]
        simp
      have hop : initOnceFunc p = .ok (initLoop p) := by
        simp only [initOnceFunc]
        rw [hIp]
        simp
      exact hmain _ _ hoq hop ⟨hid, hic, hcond, hcn, hai⟩ rfl
    | none =>
      have hIp : (initLoop p).identity = none := by rw [hid, hI]
      have hifccase : (∃ msg, p.identityFromContext = .error msg)
          ∨ ∃ pr, p.identityFromContext = .ok pr := by
        cases p.identityFromContext with
        | error m => exact Or.inl ⟨m, rfl⟩
        | ok pr => exact Or.inr ⟨pr, rfl⟩
      rcases hifccase with ⟨msg, hifc⟩ | ⟨⟨ident, cavs⟩, hifc⟩
      · have hoq : initOnceFunc { p with macOps := l₁ ++ l₂ }
            = .error ("could not determine identity: " ++ msg) := by
          simp only [initOnceFunc]
          rw [hI, hifc]
          simp
        have hop : initOnceFunc p
            = .error ("could not determine identity: " ++ msg) := by
          simp only [initOnceFunc]
          rw [hIp, hifc]
          simp
        have e1 : allowAny { p with macOps := l₁ ++ l₂ } ops
            = .initError ("could not determine identity: " ++ msg) := by
          unfold allowAny
          rw [hoq]
        have e2 : allowAny p ops
            = .initError ("could not determine identity: " ++ msg) := by
          unfold allowAny
          rw [hop]
        simp only [e1, e2]
      · have hoq : initOnceFunc { p with macOps := l₁ ++ l₂ }
            = .ok { initLoop { p with macOps := l₁ ++ l₂ } with
                identity := ident, identityCaveats := cavs } := by
          simp only [initOnceFunc]
          rw [hI, hifc]
          simp
        have hop : initOnceFunc p
            = .ok { initLoop p with identity := ident, identityCaveats := cavs } := by
          simp only [initOnceFunc]
          rw [hIp, hifc]
          simp
        exact hmain _ _ hoq hop ⟨rfl, rfl, hcond, hcn, hai⟩ rfl

/-- A checker context whose second macaroon slice fails
`MacaroonOps` (returns an error), between a valid login macaroon and
a valid `opRead` macaroon. -/
def p4Ctx : CheckerCtx String where
  macOps := [some ([LoginOp], ["c1"]), none, some ([opRead], ["c2"])]
  checkFirstPartyCaveat := fun _ _ _ => true
  inferDeclared := fun _ => [("username", "bob")]
  declaredIdentity := fun d => match d with | (_, v) :: _ => some v | [] => none
  identityFromContext := .ok (none, [])
  authorize := fun _ ops => .ok (ops.map (fun _ => true), [])

/-- Witness for C4: in `p4Ctx` the failing middle slice contributes
nothing, and an `Allow` for `opRead` gives the same outcome as
without it, with the extra slice unused. -/
theorem failedMacaroonOps_slice_skipped_witness :
    (initLoop p4Ctx).conditions 1 = []
    ∧ 1 ∉ (initLoop p4Ctx).authIndexes opRead
    ∧ ([true] : List Bool) = [true]
    ∧ (none : Option AllowErr) = none
    ∧ ([true, false, true] : List Bool).getD 1 false = false
    ∧ ([true, false, true] : List Bool).length
        = ([true, true] : List Bool).length + 1 := by
  have h := failedMacaroonOps_slice_skipped p4Ctx [some ([LoginOp], ["c1"])]
    [some ([opRead], ["c2"])] rfl
  have h5 := h.2.2.2.2 [opRead]
  have e1 : allowAny { p4Ctx with
      macOps := [some ([LoginOp], ["c1"])] ++ [some ([opRead], ["c2"])] } [opRead]
      = .result [true] [true, true] none := by decide
  have e2 : allowAny p4Ctx [opRead]
      = .result [true] [true, false, true] none := by decide
  simp only [e1, e2] at h5
  exact ⟨h.2.1, h.2.2.1 opRead, rfl, rfl, h5.2.2.2.2.1, h5.2.2.2.1⟩

end MacaroonBakery
